import Mathlib

/-!
# go-openai `chat.go`: content encoder and chat-completion entry operation

A shallow embedding of `src/chat.go`.

* Go `string` / `[]byte` values are lists of bytes (naturals below 256).
* Go `rune` values are naturals; every rune this program handles comes out of
  a UTF-8 decoder or out of `utf16.EncodeRune`, so none is negative.
* The Go runtime and standard-library routines the source calls
  (`[]rune(string)`, `string([]rune)`, `strconv.QuoteToASCII`,
  `utf16.EncodeRune`, `fmt.Sprintf` with the verb `%x`, and `json.Marshal` with
  its scanner for the serialized request) are embedded from their Go
  definitions; shifts and masks are written as division and remainder by
  powers of two.
* A run-time panic (slice bounds out of range) is an `Except` error.
-/

namespace GoOpenAI

/-! ## Go strings, runes and UTF-8 -/

/-- Go `string` or `[]byte`: a sequence of bytes. -/
abbrev GoString := List Nat

/-- ASCII text as a Go string (used to write expected outputs legibly). -/
def asc (s : String) : GoString := s.toList.map Char.toNat

/-- Constant `utf8.RuneError` (also `utf16`'s replacement character). -/
def RuneError : Nat := 0xFFFD

/-- Constant `utf8.MaxRune`. -/
def MaxRune : Nat := 0x10FFFF

/-- Table `utf8.first`: information about the first byte of a UTF-8 sequence.
`0xF0` is `as` (ASCII), `0xF1` is `xx` (invalid), otherwise the low three bits
are the sequence length and the high four bits index `acceptRanges`. -/
def first (b : Nat) : Nat :=
  if b < 0x80 then 0xF0
  else if b < 0xC2 then 0xF1
  else if b < 0xE0 then 0x02
  else if b = 0xE0 then 0x13
  else if b < 0xED then 0x03
  else if b = 0xED then 0x23
  else if b < 0xF0 then 0x03
  else if b = 0xF0 then 0x34
  else if b < 0xF4 then 0x04
  else if b = 0xF4 then 0x44
  else 0xF1

/-- Table `utf8.acceptRanges`: the accepted range `(lo, hi)` of the second byte. -/
def acceptRanges (i : Nat) : Nat × Nat :=
  match i with
  | 0 => (0x80, 0xBF)
  | 1 => (0xA0, 0xBF)
  | 2 => (0x80, 0x9F)
  | 3 => (0x90, 0xBF)
  | 4 => (0x80, 0x8F)
  | _ => (0, 0)

/-- Function `utf8.DecodeRuneInString`: the first rune of `s` and its width in
bytes; an invalid or short encoding gives `(RuneError, 1)`, the empty string
`(RuneError, 0)`. -/
def DecodeRuneInString (s : GoString) : Nat × Nat :=
  let n := s.length
  if n < 1 then (RuneError, 0) else
  let s0 := s.getD 0 0
  let x := first s0
  if x ≥ 0xF0 then
    -- mask := rune(x) << 31 >> 31; return rune(s[0])&^mask | RuneError&mask, 1
    (if x % 2 = 0 then s0 else RuneError, 1)
  else
  let sz := x % 8
  let accept := acceptRanges (x / 16)
  if n < sz then (RuneError, 1) else
  let s1 := s.getD 1 0
  if s1 < accept.1 ∨ accept.2 < s1 then (RuneError, 1) else
  if sz ≤ 2 then ((s0 % 32) * 64 + s1 % 64, 2) else
  let s2 := s.getD 2 0
  if s2 < 0x80 ∨ 0xBF < s2 then (RuneError, 1) else
  if sz ≤ 3 then ((s0 % 16) * 4096 + (s1 % 64) * 64 + s2 % 64, 3) else
  let s3 := s.getD 3 0
  if s3 < 0x80 ∨ 0xBF < s3 then (RuneError, 1) else
  ((s0 % 8) * 262144 + (s1 % 64) * 4096 + (s2 % 64) * 64 + s3 % 64, 4)

/-- Loop of the conversion `[]rune(s)`: decode one rune, drop its bytes, repeat.
Every step drops at least one byte, so `s.length` steps are enough. -/
def stringToRunesAux : Nat → GoString → List Nat
  | 0, _ => []
  | fuel + 1, s =>
    if s.length = 0 then [] else
    let rw := DecodeRuneInString s
    rw.1 :: stringToRunesAux fuel (s.drop rw.2)

/-- Conversion `[]rune(s)`. -/
def stringToRunes (s : GoString) : List Nat := stringToRunesAux s.length s

/-- Runtime `encoderune` (same as `utf8.AppendRune`): the UTF-8 bytes of one
rune; surrogates and values above `MaxRune` are written as `RuneError`. -/
def encodeRune (r : Nat) : GoString :=
  if r ≤ 0x7F then [r]
  else if r ≤ 0x7FF then [0xC0 + r / 64, 0x80 + r % 64]
  else if r > MaxRune ∨ (0xD800 ≤ r ∧ r ≤ 0xDFFF) then
    [0xE0 + RuneError / 4096, 0x80 + (RuneError / 64) % 64, 0x80 + RuneError % 64]
  else if r ≤ 0xFFFF then
    [0xE0 + r / 4096, 0x80 + (r / 64) % 64, 0x80 + r % 64]
  else
    [0xF0 + r / 262144, 0x80 + (r / 4096) % 64, 0x80 + (r / 64) % 64, 0x80 + r % 64]

/-- Conversion `string(rs)` of a rune slice. -/
def runesToString (rs : List Nat) : GoString := rs.flatMap encodeRune

/-! ## `strconv.QuoteToASCII` -/

/-- Table `lowerhex = "0123456789abcdef"`. -/
def lowerhex (d : Nat) : Nat := if d < 10 then 0x30 + d else 0x61 + (d - 10)

/-- Function `strconv.IsPrint` on its fast path `r <= 0xFF`, the only range on
which `appendEscapedRune` consults it when `ASCIIonly` is set. -/
def IsPrint (r : Nat) : Bool :=
  (0x20 ≤ r ∧ r < 0x7F) ∨ (0xA1 ≤ r ∧ r ≤ 0xFF ∧ r ≠ 0xAD)

/-- Function `utf8.ValidRune`. -/
def ValidRune (r : Nat) : Bool :=
  r < 0xD800 ∨ (0xDFFF < r ∧ r ≤ MaxRune)

/-- Function `strconv.appendEscapedRune` with `quote = '"'`, `ASCIIonly = true`,
`graphicOnly = false`.  (Older Go releases write U+007F as `\u007f`
rather than `\x7f`; nothing proved below depends on that rune.) -/
def appendEscapedRune (buf : GoString) (r : Nat) : GoString :=
  if r = 0x22 ∨ r = 0x5C then buf ++ [0x5C, r]
  else if r < 0x80 ∧ IsPrint r then buf ++ [r]
  else if r = 0x07 then buf ++ [0x5C, 0x61]        -- \a
  else if r = 0x08 then buf ++ [0x5C, 0x62]        -- \b
  else if r = 0x0C then buf ++ [0x5C, 0x66]        -- \f
  else if r = 0x0A then buf ++ [0x5C, 0x6E]        -- \n
  else if r = 0x0D then buf ++ [0x5C, 0x72]        -- \r
  else if r = 0x09 then buf ++ [0x5C, 0x74]        -- \t
  else if r = 0x0B then buf ++ [0x5C, 0x76]        -- \v
  else if r < 0x20 ∨ r = 0x7F then
    buf ++ [0x5C, 0x78, lowerhex ((r % 256) / 16), lowerhex ((r % 256) % 16)]   -- \x..
  else
    let r4 := if ValidRune r then r else 0xFFFD
    if ¬ ValidRune r ∨ r < 0x10000 then
      buf ++ [0x5C, 0x75, lowerhex ((r4 / 4096) % 16), lowerhex ((r4 / 256) % 16),
              lowerhex ((r4 / 16) % 16), lowerhex (r4 % 16)]                     -- \u....
    else
      buf ++ [0x5C, 0x55, lowerhex ((r / 268435456) % 16), lowerhex ((r / 16777216) % 16),
              lowerhex ((r / 1048576) % 16), lowerhex ((r / 65536) % 16),
              lowerhex ((r / 4096) % 16), lowerhex ((r / 256) % 16),
              lowerhex ((r / 16) % 16), lowerhex (r % 16)]                       -- \U........

/-- Loop of `strconv.appendQuotedWith`: decode a rune from the front of `s`; a
byte that is not the start of a valid encoding is written as `\x` and two hex
digits, every other rune goes through `appendEscapedRune`. -/
def appendQuotedLoop : Nat → GoString → GoString → GoString
  | 0, buf, _ => buf
  | fuel + 1, buf, s =>
    if s.length = 0 then buf else
    let s0 := s.getD 0 0
    let rw := if s0 ≥ 0x80 then DecodeRuneInString s else (s0, 1)
    if rw.2 = 1 ∧ rw.1 = RuneError then
      appendQuotedLoop fuel (buf ++ [0x5C, 0x78, lowerhex (s0 / 16), lowerhex (s0 % 16)])
        (s.drop rw.2)
    else
      appendQuotedLoop fuel (appendEscapedRune buf rw.1) (s.drop rw.2)

/-- Function `strconv.QuoteToASCII`: a double-quoted Go string literal for `s`
with every non-ASCII and non-printable character escaped. -/
def QuoteToASCII (s : GoString) : GoString :=
  appendQuotedLoop s.length [0x22] s ++ [0x22]

/-! ## `utf16.EncodeRune` and `fmt.Sprintf` -/

/-- Function `utf16.EncodeRune`: the surrogate pair of `r`, or the replacement
character twice when `r` is not a supplementary-plane code point. -/
def EncodeRune (r : Nat) : Nat × Nat :=
  if r < 0x10000 ∨ r > MaxRune then (RuneError, RuneError)
  else
    let r1 := r - 0x10000
    (0xD800 + (r1 / 1024) % 1024, 0xDC00 + r1 % 1024)

/-- Digit loop of `fmt`'s `fmtInteger` in base 16: the digits of `u`, least
significant first.  The buffer of `fmt` holds a 64-bit value, sixteen digits. -/
def fmtHexRev : Nat → Nat → GoString
  | 0, _ => []
  | fuel + 1, u =>
    if u ≥ 16 then lowerhex (u % 16) :: fmtHexRev fuel (u / 16) else [lowerhex u]

/-- Verb `%x` of `fmt.Sprintf` on a non-negative integer: lowercase hexadecimal,
no padding. -/
def fmtHex (u : Nat) : GoString := (fmtHexRev 16 u).reverse

/-- Call ``fmt.Sprintf(`\u%x\u%x`, a, b)``. -/
def sprintfPair (a b : Nat) : GoString :=
  [0x5C, 0x75] ++ fmtHex a ++ [0x5C, 0x75] ++ fmtHex b

/-! ## `Content.MarshalJSON` -/

/-- A run-time panic of the Go program. -/
inductive Panic where
  | sliceBounds
  deriving DecidableEq, Repr

/-- Slice expression `xs[lo:hi]`: panics unless `0 <= lo <= hi <= len(xs)`.
(For a slice Go checks `hi` against the capacity, which is at least the length,
so a slice expression that is fine here is fine in Go.) -/
def sliceOf {α : Type} (xs : List α) (lo hi : Int) : Except Panic (List α) :=
  if 0 ≤ lo ∧ lo ≤ hi ∧ hi ≤ (xs.length : Int) then
    .ok ((xs.drop lo.toNat).take (hi.toNat - lo.toNat))
  else .error .sliceBounds

/-- The statement of `MarshalJSON` that wrote a piece of the output. -/
inductive WriteSite where
  /-- Lines 38 and 49: the interior of a `QuoteToASCII` result. -/
  | quoted
  /-- Line 42: the two escapes of a surrogate pair. -/
  | pair
  deriving DecidableEq, Repr

/-- One call of `tmpStr.WriteString`. -/
structure Write where
  site : WriteSite
  text : GoString
  deriving DecidableEq, Repr

/-- Contents of the `strings.Builder` after the given calls of `WriteString`. -/
def builderString (ws : List Write) : GoString := ws.flatMap (fun w => w.text)

/-- Lines 37-38 and 48-49: quote the runes and write the result without its
first and last byte. -/
def writeQuoted (tmpStr : List Write) (run : List Nat) : Except Panic (List Write) := do
  let rt := QuoteToASCII (runesToString run)
  let inner ← sliceOf rt 1 ((rt.length : Int) - 1)
  pure (tmpStr ++ [⟨.quoted, inner⟩])

/-- Body of the loop `for i, r := range tmpRune` (lines 34-44) on the state
`(tmpStr, iStart)`. -/
def loopBody (tmpRune : List Nat) (i : Nat) (r : Nat) (st : List Write × Nat) :
    Except Panic (List Write × Nat) :=
  if r ≥ 0x10000 then do
    let tmpStr ←
      if i > st.2 then do
        let run ← sliceOf tmpRune (st.2 : Int) (i : Int)
        writeQuoted st.1 run
      else pure st.1
    let ab := EncodeRune r
    pure (tmpStr ++ [⟨.pair, sprintfPair ab.1 ab.2⟩], i + 1)
  else pure st

/-- The loop `for i, r := range tmpRune` from index `i` over the remaining
elements. -/
def rangeLoop (tmpRune : List Nat) : Nat → List Nat → List Write × Nat →
    Except Panic (List Write × Nat)
  | _, [], st => pure st
  | i, r :: rest, st => do
    let st1 ← loopBody tmpRune i r st
    rangeLoop tmpRune (i + 1) rest st1

/-- Lines 47-50: after the loop, quote and write the runes from `iStart` on. -/
def finalFlush (tmpRune : List Nat) (st : List Write × Nat) : Except Panic (List Write) :=
  if st.2 < tmpRune.length then do
    let run ← sliceOf tmpRune (st.2 : Int) (tmpRune.length : Int)
    writeQuoted st.1 run
  else pure st.1

/-- The calls of `tmpStr.WriteString` that `Content.MarshalJSON` makes on the
content `c`, in order (lines 30-50). -/
def marshalWrites (c : GoString) : Except Panic (List Write) := do
  let tmpRune := stringToRunes c
  let st ← rangeLoop tmpRune 0 tmpRune ([], 0)
  finalFlush tmpRune st

/-- A Go `error` value returned by the code of `chat.go`. -/
inductive GoError (E : Type) where
  /-- Sentinel `ErrChatCompletionInvalidModel`. -/
  | ErrChatCompletionInvalidModel
  /-- Sentinel `ErrChatCompletionStreamNotSupported`. -/
  | ErrChatCompletionStreamNotSupported
  /-- An error value produced by a collaborator and handed on as it is. -/
  | collaborator (e : E)
  deriving DecidableEq, Repr

/-- Method `Content.MarshalJSON`: the bytes of the builder and the returned
`error` (`none` is `nil`). -/
def MarshalJSON (c : GoString) : Except Panic (GoString × Option (GoError Unit)) := do
  let ws ← marshalWrites c
  pure (builderString ws, none)

/-! ## Request and response model, `CreateChatCompletion` -/

/-- Go `float32`, kept as its IEEE-754 bit pattern. -/
structure Float32 where
  bits : Nat
  deriving DecidableEq, Repr

/-- Struct `ChatCompletionMessage`. -/
structure ChatCompletionMessage where
  Role : GoString
  Content : GoString
  Name : GoString
  deriving DecidableEq, Repr

/-- Struct `ChatCompletionRequest`.  `Messages` is `none` for the nil slice and
`some ms` for an allocated one, which `json.Marshal` writes differently; `Stop`
and `LogitBias` are tagged `omitempty`, which leaves out nil and empty alike,
so they are plain lists. -/
structure ChatCompletionRequest where
  Model : GoString
  Messages : Option (List ChatCompletionMessage)
  MaxTokens : Int
  Temperature : Float32
  TopP : Float32
  N : Int
  Stream : Bool
  Stop : List GoString
  PresencePenalty : Float32
  FrequencyPenalty : Float32
  LogitBias : List (GoString × Int)
  User : GoString
  deriving DecidableEq, Repr

/-- Struct `ChatCompletionChoice`. -/
structure ChatCompletionChoice where
  Index : Int
  Message : ChatCompletionMessage
  FinishReason : GoString
  deriving DecidableEq, Repr

/-- Modelled from the spec: the struct `Usage` is declared in another file of
the package; the spec describes it as token accounting (prompt, completion,
total). -/
structure Usage where
  PromptTokens : Int
  CompletionTokens : Int
  TotalTokens : Int
  deriving DecidableEq, Repr

/-- Struct `ChatCompletionResponse`. -/
structure ChatCompletionResponse where
  ID : GoString
  Object : GoString
  Created : Int
  Model : GoString
  Choices : List ChatCompletionChoice
  Usage : Usage
  deriving DecidableEq, Repr

/-- The zero value of `ChatCompletionResponse`, the initial value of the named
result `response`. -/
def zeroResponse : ChatCompletionResponse :=
  { ID := [], Object := [], Created := 0, Model := [], Choices := [],
    Usage := { PromptTokens := 0, CompletionTokens := 0, TotalTokens := 0 } }

/-- What the transport of a client has been asked to do: a request handed to
`requestBuilder.build`, or a built request handed to `sendRequest`. -/
inductive TransportEvent (HttpReq : Type) where
  | built (method url : GoString) (body : ChatCompletionRequest)
  | sent (req : HttpReq)
  deriving DecidableEq, Repr

/-- The collaborators of `CreateChatCompletion`, none of which is defined in
`chat.go`: the package function `checkEndpointSupportsModel` and the client's
`fullURL`, `requestBuilder.build` and `sendRequest`.  Building and sending may
depend on what the transport has done so far.  `sendRequest` receives the
current value of `response` (it is passed `&response`) and gives its new value
together with the error. -/
structure Client (Ctx HttpReq E : Type) where
  checkEndpointSupportsModel : GoString → GoString → Bool
  fullURL : GoString → GoString → GoString
  build : List (TransportEvent HttpReq) → Ctx → GoString → GoString → ChatCompletionRequest →
    Except E HttpReq
  sendRequest : List (TransportEvent HttpReq) → HttpReq → ChatCompletionResponse →
    ChatCompletionResponse × Option E

/-- Constant `http.MethodPost`. -/
def MethodPost : GoString := asc "POST"

/-- Method `Client.CreateChatCompletion` (lines 98-120): the returned
`(response, err)` and the transport record after the call. -/
def CreateChatCompletion {Ctx HttpReq E : Type} (c : Client Ctx HttpReq E)
    (log : List (TransportEvent HttpReq)) (ctx : Ctx) (request : ChatCompletionRequest) :
    (ChatCompletionResponse × Option (GoError E)) × List (TransportEvent HttpReq) :=
  let response := zeroResponse
  if request.Stream then
    ((response, some .ErrChatCompletionStreamNotSupported), log)
  else
    let urlSuffix := asc "/chat/completions"
    if !c.checkEndpointSupportsModel urlSuffix request.Model then
      ((response, some .ErrChatCompletionInvalidModel), log)
    else
      let url := c.fullURL urlSuffix request.Model
      let log1 := log ++ [.built MethodPost url request]
      match c.build log ctx MethodPost url request with
      | .error e => ((response, some (.collaborator e)), log1)
      | .ok req =>
        let out := c.sendRequest log1 req response
        ((out.1, out.2.map .collaborator), log1 ++ [.sent req])

/-- A sequence without its first and its last element. -/
def stripEnds {α : Type} (xs : List α) : List α := (xs.drop 1).dropLast

/-! ## The writes of `MarshalJSON` as a function of the rune sequence

A closed form of the loop, used to reason about it: `pending` is the run of
runes read since the last supplementary one. -/

/-- The write that flushes a run through the quoter. -/
def quotedWrite (run : List Nat) : Write :=
  ⟨.quoted, stripEnds (QuoteToASCII (runesToString run))⟩

/-- The write for a rune at or above U+10000. -/
def pairWrite (r : Nat) : Write :=
  ⟨.pair, sprintfPair (EncodeRune r).1 (EncodeRune r).2⟩

/-- Flushing the pending run: nothing when it is empty. -/
def flushWrites (pending : List Nat) : List Write :=
  if pending.isEmpty then [] else [quotedWrite pending]

/-- The writes made from a point of the loop on. -/
def writesFrom (pending : List Nat) : List Nat → List Write
  | [] => flushWrites pending
  | r :: rest =>
    if r ≥ 0x10000 then flushWrites pending ++ pairWrite r :: writesFrom [] rest
    else writesFrom (pending ++ [r]) rest

/-- The bytes `MarshalJSON` writes for one rune: the surrogate-pair escape at
or above U+10000, the quoter's escape of the rune below. -/
def scalarBytes (r : Nat) : GoString :=
  if r ≥ 0x10000 then sprintfPair (EncodeRune r).1 (EncodeRune r).2
  else appendEscapedRune [] r

/-! ## `encoding/json`: the scanner and `compact` -/

/-- The step functions of the `encoding/json` scanner (`stateBeginValue`,
`stateInString`, ... in `scanner.go`). -/
inductive ScanState where
  | beginValueOrEmpty | beginValue | beginStringOrEmpty | beginString | endValue | endTop
  | inString | inStringEsc | inStringEscU | inStringEscU1 | inStringEscU12 | inStringEscU123
  | neg | one | zero | dot | dot0 | exp | expSign | exp0
  | litT | litTr | litTru | litF | litFa | litFal | litFals | litN | litNu | litNul
  | error
  deriving DecidableEq, Repr

/-- The entries of the scanner's parse-state stack. -/
inductive ParseState where
  | objectKey | objectValue | arrayValue
  deriving DecidableEq, Repr

/-- What a scanner step returns, as far as `compact` looks at it: `keep` stands
for every code below `scanSkipSpace`. -/
inductive ScanCode where
  | keep | skipSpace | scanEnd | scanError
  deriving DecidableEq, Repr

/-- The `scanner` of `encoding/json`: the current step function, the stack of
parse states (innermost first), whether an error was recorded and whether the
top-level value has ended. -/
structure Scanner where
  step : ScanState
  parseState : List ParseState
  err : Bool
  endTop : Bool
  deriving DecidableEq, Repr

/-- A scanner after `reset`. -/
def Scanner.init : Scanner :=
  { step := .beginValue, parseState := [], err := false, endTop := false }

/-- Method `scanner.error`: record the error, every later step fails. -/
def Scanner.fail (s : Scanner) : Scanner × ScanCode :=
  ({ s with step := .error, err := true }, .scanError)

/-- Go on with the step function `next`, returning a code below `scanSkipSpace`. -/
def Scanner.goto (s : Scanner) (next : ScanState) : Scanner × ScanCode :=
  ({ s with step := next }, .keep)

/-- Function `isSpace` of the scanner. -/
def isSpace (c : Nat) : Bool := c = 0x20 ∨ c = 0x09 ∨ c = 0x0D ∨ c = 0x0A

/-- Whether `c` is an ASCII decimal digit. -/
def isDigit (c : Nat) : Bool := 0x30 ≤ c ∧ c ≤ 0x39

/-- Whether `c` is a hexadecimal digit of either case. -/
def isHex (c : Nat) : Bool :=
  (0x30 ≤ c ∧ c ≤ 0x39) ∨ (0x61 ≤ c ∧ c ≤ 0x66) ∨ (0x41 ≤ c ∧ c ≤ 0x46)

/-- Constant `maxNestingDepth`. -/
def maxNestingDepth : Nat := 10000

/-- Method `pushParseState`, after the caller has set the step function. -/
def Scanner.push (s : Scanner) (p : ParseState) (next : ScanState) : Scanner × ScanCode :=
  let s1 := { s with step := next, parseState := p :: s.parseState }
  if s1.parseState.length ≤ maxNestingDepth then (s1, .keep) else s1.fail

/-- Method `popParseState`. -/
def Scanner.pop (s : Scanner) : Scanner :=
  let rest := s.parseState.tail
  if rest.length = 0 then { s with parseState := rest, step := .endTop, endTop := true }
  else { s with parseState := rest, step := .endValue }

/-- Function `stateEndTop`: a byte after the top-level value; anything but
white space records an error. -/
def stateEndTop (s : Scanner) (c : Nat) : Scanner × ScanCode :=
  if !isSpace c then ((s.fail).1, .scanEnd) else (s, .scanEnd)

/-- Function `stateEndValue`: the byte after a value. -/
def stateEndValue (s : Scanner) (c : Nat) : Scanner × ScanCode :=
  match s.parseState with
  | [] => stateEndTop { s with step := .endTop, endTop := true } c
  | ps :: rest =>
    if isSpace c then ({ s with step := .endValue }, .skipSpace)
    else
      match ps with
      | .objectKey =>
        if c = 0x3A then ({ s with parseState := .objectValue :: rest, step := .beginValue }, .keep)
        else s.fail
      | .objectValue =>
        if c = 0x2C then ({ s with parseState := .objectKey :: rest, step := .beginString }, .keep)
        else if c = 0x7D then (s.pop, .keep)
        else s.fail
      | .arrayValue =>
        if c = 0x2C then s.goto .beginValue
        else if c = 0x5D then (s.pop, .keep)
        else s.fail

/-- Function `stateBeginValue`: the first byte of a value. -/
def stateBeginValue (s : Scanner) (c : Nat) : Scanner × ScanCode :=
  if isSpace c then (s, .skipSpace)
  else if c = 0x7B then s.push .objectKey .beginStringOrEmpty
  else if c = 0x5B then s.push .arrayValue .beginValueOrEmpty
  else if c = 0x22 then s.goto .inString
  else if c = 0x2D then s.goto .neg
  else if c = 0x30 then s.goto .zero
  else if c = 0x74 then s.goto .litT
  else if c = 0x66 then s.goto .litF
  else if c = 0x6E then s.goto .litN
  else if 0x31 ≤ c ∧ c ≤ 0x39 then s.goto .one
  else s.fail

/-- Function `stateBeginString`: the first byte of an object key. -/
def stateBeginString (s : Scanner) (c : Nat) : Scanner × ScanCode :=
  if isSpace c then (s, .skipSpace)
  else if c = 0x22 then s.goto .inString
  else s.fail

/-- Function `state0`: after the integer part of a number. -/
def state0 (s : Scanner) (c : Nat) : Scanner × ScanCode :=
  if c = 0x2E then s.goto .dot
  else if c = 0x65 ∨ c = 0x45 then s.goto .exp
  else stateEndValue s c

/-- Function `stateESign`: after `e` and an optional sign. -/
def stateESign (s : Scanner) (c : Nat) : Scanner × ScanCode :=
  if isDigit c then s.goto .exp0 else s.fail

/-- One step of the scanner: `s.step(s, c)`. -/
def scanStep (s : Scanner) (c : Nat) : Scanner × ScanCode :=
  match s.step with
  | .beginValueOrEmpty =>
    if isSpace c then (s, .skipSpace)
    else if c = 0x5D then stateEndValue s c
    else stateBeginValue s c
  | .beginValue => stateBeginValue s c
  | .beginStringOrEmpty =>
    if isSpace c then (s, .skipSpace)
    else if c = 0x7D then
      stateEndValue { s with parseState := .objectValue :: s.parseState.tail } c
    else stateBeginString s c
  | .beginString => stateBeginString s c
  | .endValue => stateEndValue s c
  | .endTop => stateEndTop s c
  | .inString =>
    if c = 0x22 then s.goto .endValue
    else if c = 0x5C then s.goto .inStringEsc
    else if c < 0x20 then s.fail
    else (s, .keep)
  | .inStringEsc =>
    if c = 0x62 ∨ c = 0x66 ∨ c = 0x6E ∨ c = 0x72 ∨ c = 0x74 ∨ c = 0x5C ∨ c = 0x2F ∨ c = 0x22 then
      s.goto .inString
    else if c = 0x75 then s.goto .inStringEscU
    else s.fail
  | .inStringEscU => if isHex c then s.goto .inStringEscU1 else s.fail
  | .inStringEscU1 => if isHex c then s.goto .inStringEscU12 else s.fail
  | .inStringEscU12 => if isHex c then s.goto .inStringEscU123 else s.fail
  | .inStringEscU123 => if isHex c then s.goto .inString else s.fail
  | .neg =>
    if c = 0x30 then s.goto .zero
    else if 0x31 ≤ c ∧ c ≤ 0x39 then s.goto .one
    else s.fail
  | .one => if isDigit c then s.goto .one else state0 s c
  | .zero => state0 s c
  | .dot => if isDigit c then s.goto .dot0 else s.fail
  | .dot0 =>
    if isDigit c then (s, .keep)
    else if c = 0x65 ∨ c = 0x45 then s.goto .exp
    else stateEndValue s c
  | .exp => if c = 0x2B ∨ c = 0x2D then s.goto .expSign else stateESign s c
  | .expSign => stateESign s c
  | .exp0 => if isDigit c then (s, .keep) else stateEndValue s c
  | .litT => if c = 0x72 then s.goto .litTr else s.fail
  | .litTr => if c = 0x75 then s.goto .litTru else s.fail
  | .litTru => if c = 0x65 then s.goto .endValue else s.fail
  | .litF => if c = 0x61 then s.goto .litFa else s.fail
  | .litFa => if c = 0x6C then s.goto .litFal else s.fail
  | .litFal => if c = 0x73 then s.goto .litFals else s.fail
  | .litFals => if c = 0x65 then s.goto .endValue else s.fail
  | .litN => if c = 0x75 then s.goto .litNu else s.fail
  | .litNu => if c = 0x6C then s.goto .litNul else s.fail
  | .litNul => if c = 0x6C then s.goto .endValue else s.fail
  | .error => (s, .scanError)

/-- Method `scanner.eof`: whether the input may end here (`true` when the
result is `scanEnd`, `false` when it is `scanError`). -/
def Scanner.eofOk (s : Scanner) : Bool :=
  if s.err then false
  else if s.endTop then true
  else (scanStep s 0x20).1.endTop

/-- Loop of `compact` with `escape` set: every byte goes through the scanner;
white space outside strings is dropped; `<`, `>` and `&` are written as a
backslash, `u00` and their two hex digits; an error of the scanner, also at the
end of the input, gives no output.  (The rewriting of U+2028 and U+2029 is left
out: it only concerns bytes above 0x7F, and the output of `Content.MarshalJSON`
has none.) -/
def compactLoop : Scanner → GoString → GoString → Option GoString
  | sc, dst, [] => if sc.eofOk then some dst else none
  | sc, dst, c :: rest =>
    let html : Bool := c = 0x3C ∨ c = 0x3E ∨ c = 0x26
    let dst1 := if html then dst ++ [0x5C, 0x75, 0x30, 0x30, lowerhex (c / 16), lowerhex (c % 16)]
      else dst
    let r := scanStep sc c
    match r.2 with
    | .scanError => none
    | .skipSpace => compactLoop r.1 dst1 rest
    | .scanEnd => compactLoop r.1 dst1 rest
    | .keep => compactLoop r.1 (if html then dst1 else dst1 ++ [c]) rest

/-- Function `compact` of `encoding/json` with `escape` set: the compacted
form of a valid JSON text, nothing for an invalid one. -/
def compact (src : GoString) : Option GoString := compactLoop Scanner.init [] src

/-! ## `encoding/json`: marshalling a request -/

/-- Why `json.Marshal` returns an error. -/
inductive MarshalError where
  /-- Error `*json.UnsupportedValueError`: a float that is NaN or infinite. -/
  | unsupportedValue
  /-- Error `*json.MarshalerError`: `MarshalJSON` returned an error or bytes
  that are not valid JSON. -/
  | marshalerError
  /-- A panic inside `MarshalJSON`. -/
  | panic
  deriving DecidableEq, Repr

/-- Whether a `float32` equals zero (either sign), the test `v.Float() == 0`
that `omitempty` applies to a float field.  (Some Go releases test the bit
pattern instead, which differs for negative zero only.) -/
def Float32.isZero (f : Float32) : Bool := f.bits % 2147483648 = 0

/-- Whether a `float32` is neither NaN nor infinite (its exponent bits are not
all ones). -/
def Float32.isFinite (f : Float32) : Bool := (f.bits / 8388608) % 256 ≠ 255

/-- Function `marshalerEncoder` on a `Content`: call `MarshalJSON` and pass
its bytes through `compact`, which rejects them unless they are valid JSON. -/
def marshalerEncoder (c : GoString) : Except MarshalError GoString :=
  match MarshalJSON c with
  | .error _ => .error .panic
  | .ok (_, some _) => .error .marshalerError
  | .ok (b, none) =>
    match compact b with
    | some out => .ok out
    | none => .error .marshalerError

/-- A message as `json.Marshal` writes it: the role, the compacted bytes its
content marshalled to, and the name unless it is empty (`omitempty`). -/
structure EncodedMessage where
  role : GoString
  content : GoString
  name : Option GoString
  deriving DecidableEq, Repr

/-- The value of a member of the request object, before it is written out. -/
inductive JsonValue where
  | string (s : GoString)
  | int (n : Int)
  | float32 (f : Float32)
  | bool (b : Bool)
  | strings (xs : List GoString)
  | intMap (m : List (GoString × Int))
  | messages (ms : Option (List EncodedMessage))
  deriving DecidableEq, Repr

/-- The struct encoder on a `ChatCompletionMessage` (lines 54-63). -/
def encodeMessage (m : ChatCompletionMessage) : Except MarshalError EncodedMessage := do
  let content ← marshalerEncoder m.Content
  pure { role := m.Role, content := content,
         name := if m.Name.isEmpty then none else some m.Name }

/-- A `float32` member with `omitempty`: left out when zero, an error when NaN
or infinite. -/
def floatMember (key : GoString) (f : Float32) :
    Except MarshalError (List (GoString × JsonValue)) :=
  if f.isZero then pure []
  else if f.isFinite then pure [(key, .float32 f)]
  else .error .unsupportedValue

/-- The slice encoder on the field `Messages`: the nil slice stays nil, every
message of an allocated slice is encoded in turn. -/
def encodeMessages : Option (List ChatCompletionMessage) →
    Except MarshalError (Option (List EncodedMessage))
  | none => pure none
  | some ms => do
    let encoded ← ms.mapM encodeMessage
    pure (some encoded)

/-- The struct encoder on the fields tagged `omitempty` (lines 69-78): the
members in the order of the fields, a field left out when it is empty. -/
def optionalMembers (r : ChatCompletionRequest) :
    Except MarshalError (List (GoString × JsonValue)) := do
  let temperature ← floatMember (asc "temperature") r.Temperature
  let topP ← floatMember (asc "top_p") r.TopP
  let presencePenalty ← floatMember (asc "presence_penalty") r.PresencePenalty
  let frequencyPenalty ← floatMember (asc "frequency_penalty") r.FrequencyPenalty
  pure ((if r.MaxTokens = 0 then [] else [(asc "max_tokens", .int r.MaxTokens)])
    ++ temperature
    ++ topP
    ++ (if r.N = 0 then [] else [(asc "n", .int r.N)])
    ++ (if r.Stream then [(asc "stream", .bool r.Stream)] else [])
    ++ (if r.Stop.isEmpty then [] else [(asc "stop", .strings r.Stop)])
    ++ presencePenalty
    ++ frequencyPenalty
    ++ (if r.LogitBias.isEmpty then [] else [(asc "logit_bias", .intMap r.LogitBias)])
    ++ (if r.User.isEmpty then [] else [(asc "user", .string r.User)]))

/-- The struct encoder of `json.Marshal` on a `ChatCompletionRequest` (lines
66-79): the members of the JSON object in the order of the fields, `model` and
`messages` first; the first member that cannot be encoded makes the whole call
fail. -/
def marshalRequest (r : ChatCompletionRequest) :
    Except MarshalError (List (GoString × JsonValue)) := do
  let messages ← encodeMessages r.Messages
  let optional ← optionalMembers r
  pure ((asc "model", .string r.Model) :: (asc "messages", .messages messages) :: optional)

/-- Loop of `appendString` of `encoding/json` with `escapeHTML` set. -/
def appendStringLoop : Nat → GoString → GoString → GoString
  | 0, dst, _ => dst
  | fuel + 1, dst, src =>
    match src with
    | [] => dst
    | b :: rest =>
      if b < 0x80 then
        if 0x20 ≤ b ∧ b ≠ 0x22 ∧ b ≠ 0x5C ∧ b ≠ 0x3C ∧ b ≠ 0x3E ∧ b ≠ 0x26 then
          appendStringLoop fuel (dst ++ [b]) rest
        else if b = 0x5C ∨ b = 0x22 then appendStringLoop fuel (dst ++ [0x5C, b]) rest
        else if b = 0x08 then appendStringLoop fuel (dst ++ [0x5C, 0x62]) rest
        else if b = 0x0C then appendStringLoop fuel (dst ++ [0x5C, 0x66]) rest
        else if b = 0x0A then appendStringLoop fuel (dst ++ [0x5C, 0x6E]) rest
        else if b = 0x0D then appendStringLoop fuel (dst ++ [0x5C, 0x72]) rest
        else if b = 0x09 then appendStringLoop fuel (dst ++ [0x5C, 0x74]) rest
        else appendStringLoop fuel
          (dst ++ [0x5C, 0x75, 0x30, 0x30, lowerhex (b / 16), lowerhex (b % 16)]) rest
      else
        let cw := DecodeRuneInString (src.take 4)
        if cw.1 = RuneError ∧ cw.2 = 1 then
          appendStringLoop fuel (dst ++ [0x5C, 0x75, 0x66, 0x66, 0x66, 0x64]) (src.drop 1)
        else if cw.1 = 0x2028 ∨ cw.1 = 0x2029 then
          appendStringLoop fuel (dst ++ [0x5C, 0x75, 0x32, 0x30, 0x32, lowerhex (cw.1 % 16)])
            (src.drop cw.2)
        else appendStringLoop fuel (dst ++ src.take cw.2) (src.drop cw.2)

/-- Function `appendString` of `encoding/json`: a Go string as a JSON string.
(Older Go releases write U+0008 and U+000C with `u00` escapes.) -/
def appendString (s : GoString) : GoString :=
  appendStringLoop s.length [0x22] s ++ [0x22]

/-- Digit loop of `strconv.AppendInt` in base 10: the digits of `u`, least
significant first. -/
def decimalRev : Nat → Nat → GoString
  | 0, _ => []
  | fuel + 1, u => if u ≥ 10 then (0x30 + u % 10) :: decimalRev fuel (u / 10) else [0x30 + u]

/-- Function `strconv.AppendInt` in base 10 on a 64-bit integer. -/
def appendInt (n : Int) : GoString :=
  (if n < 0 then [0x2D] else []) ++ (decimalRev 20 n.natAbs).reverse

/-- The elements of a list with `sep` between them. -/
def joinWith (sep : GoString) : List GoString → GoString
  | [] => []
  | [x] => x
  | x :: y :: rest => x ++ sep ++ joinWith sep (y :: rest)

/-- Byte-wise lexicographic order of Go strings (`strings.Compare(a, b) <= 0`). -/
def lexLe : GoString → GoString → Bool
  | [], _ => true
  | _ :: _, [] => false
  | a :: as, b :: bs => if a < b then true else if b < a then false else lexLe as bs

/-- A `ChatCompletionMessage` written out. -/
def renderMessage (m : EncodedMessage) : GoString :=
  asc "\x7b\"role\":" ++ appendString m.role ++ asc ",\"content\":" ++ m.content
    ++ (match m.name with
        | none => []
        | some n => asc ",\"name\":" ++ appendString n)
    ++ asc "\x7d"

/-- A member's value written out.  `formatFloat` stands for
`strconv.AppendFloat` on a finite `float32`, whose digits are not modelled.  A
map is written with its keys in sorted order.  The nil slice of messages is
written `null`, an allocated one as an array, `[]` when it is empty.  (`Stop`
and `LogitBias` are members only when they are not empty.) -/
def renderValue (formatFloat : Float32 → GoString) : JsonValue → GoString
  | .string s => appendString s
  | .int n => appendInt n
  | .float32 f => formatFloat f
  | .bool b => if b then asc "true" else asc "false"
  | .strings xs => asc "[" ++ joinWith [0x2C] (xs.map appendString) ++ asc "]"
  | .intMap m =>
    asc "\x7b" ++ joinWith [0x2C]
      ((m.insertionSort (fun a b => lexLe a.1 b.1 = true)).map
        (fun kv => appendString kv.1 ++ [0x3A] ++ appendInt kv.2)) ++ asc "\x7d"
  | .messages none => asc "null"
  | .messages (some ms) => asc "[" ++ joinWith [0x2C] (ms.map renderMessage) ++ asc "]"

/-- The JSON object with the given members, as the struct encoder writes it. -/
def renderObject (formatFloat : Float32 → GoString) (members : List (GoString × JsonValue)) :
    GoString :=
  asc "\x7b" ++ joinWith [0x2C]
    (members.map (fun kv => appendString kv.1 ++ [0x3A] ++ renderValue formatFloat kv.2))
    ++ asc "\x7d"

/-- Function `json.Marshal` on a `ChatCompletionRequest`: the bytes of the
JSON object, or the error. -/
def jsonMarshal (formatFloat : Float32 → GoString) (r : ChatCompletionRequest) :
    Except MarshalError GoString :=
  (marshalRequest r).map (renderObject formatFloat)

/-! ## Reference definitions taken from the specification

These follow the words of the specification and of RFC 8259, not the code; the
theorems compare the embedded code with them. -/

/-- A Unicode scalar value: a code point up to U+10FFFF that is not a
surrogate. -/
def isScalar (c : Nat) : Bool :=
  c < 0xD800 ∨ (0xE000 ≤ c ∧ c ≤ 0x10FFFF)

/-- A well-formed text: a sequence of Unicode scalar values. -/
def IsText (s : List Nat) : Prop := ∀ c ∈ s, isScalar c = true

instance (s : List Nat) : Decidable (IsText s) := by
  unfold IsText; infer_instance

/-- The lowercase hexadecimal digit of a value below sixteen. -/
def specHexDigit (d : Nat) : Nat := (("0123456789abcdef".toList.getD d '0').toNat)

/-- Four lowercase hexadecimal digits of a 16-bit value. -/
def specHex4 (u : Nat) : GoString :=
  [specHexDigit (u / 4096 % 16), specHexDigit (u / 256 % 16), specHexDigit (u / 16 % 16),
   specHexDigit (u % 16)]

/-- High surrogate of a supplementary scalar, as the specification gives it. -/
def specHi (c : Nat) : Nat := 0xD800 + (c - 0x10000) / 1024

/-- Low surrogate of a supplementary scalar, as the specification gives it. -/
def specLo (c : Nat) : Nat := 0xDC00 + (c - 0x10000) % 1024

/-- The two escapes of a surrogate pair: backslash, `u`, four hex digits of the
high surrogate, backslash, `u`, four hex digits of the low surrogate. -/
def specPairEscape (c : Nat) : GoString :=
  [0x5C, 0x75] ++ specHex4 (specHi c) ++ [0x5C, 0x75] ++ specHex4 (specLo c)

/-- A segment of a text: a run of scalars below U+10000, or one scalar at or
above U+10000. -/
inductive Segment where
  | bmpRun (run : List Nat)
  | supp (c : Nat)
  deriving DecidableEq, Repr

/-- The scalars of a segment. -/
def Segment.scalars : Segment → List Nat
  | .bmpRun run => run
  | .supp c => [c]

/-- Whether a segment is a BMP run. -/
def Segment.isRun : Segment → Bool
  | .bmpRun _ => true
  | .supp _ => false

/-- A segment is well formed: a run is non-empty and stays below U+10000, a
supplementary segment is at or above U+10000. -/
def Segment.ok : Segment → Bool
  | .bmpRun run => !run.isEmpty && run.all (fun c => decide (c < 0x10000))
  | .supp c => decide (0x10000 ≤ c)

/-- No two BMP runs are neighbours (so every run is maximal). -/
def noAdjacentRuns : List Segment → Bool
  | a :: b :: rest => !(a.isRun && b.isRun) && noAdjacentRuns (b :: rest)
  | _ => true

/-- The list `segs` splits `s` into its maximal runs of scalars below U+10000
and its individual scalars at or above U+10000. -/
def isSegmentation (s : List Nat) (segs : List Segment) : Bool :=
  decide (segs.flatMap Segment.scalars = s) && segs.all Segment.ok && noAdjacentRuns segs

/-- A scalar below U+10000 in front of a split: it joins the run the split
starts with, or starts a run of its own. -/
def consBmp (c : Nat) : List Segment → List Segment
  | .bmpRun run :: more => .bmpRun (c :: run) :: more
  | more => .bmpRun [c] :: more

/-- The split of a text into maximal BMP runs and supplementary scalars. -/
def segments : List Nat → List Segment
  | [] => []
  | c :: cs => if c < 0x10000 then consBmp c (segments cs) else .supp c :: segments cs

/-- The piece of output the specification assigns to a segment. -/
def segmentPiece : Segment → GoString
  | .bmpRun run => stripEnds (QuoteToASCII (runesToString run))
  | .supp c => specPairEscape c

/-- Why a byte sequence is not a JSON string with a text value. -/
inductive JsonError where
  | badUTF8 | noOpeningQuote | unterminated | trailing | control | badEscape | badHex
  | loneSurrogate
  deriving DecidableEq, Repr

/-- Value of a hexadecimal digit (RFC 8259 `HEXDIG`, either case). -/
def hexVal (b : Nat) : Option Nat :=
  if 0x30 ≤ b ∧ b ≤ 0x39 then some (b - 0x30)
  else if 0x41 ≤ b ∧ b ≤ 0x46 then some (b - 0x41 + 10)
  else if 0x61 ≤ b ∧ b ≤ 0x66 then some (b - 0x61 + 10)
  else none

/-- Value of four hexadecimal digits. -/
def hex4 (a b c d : Nat) : Option Nat :=
  match hexVal a, hexVal b, hexVal c, hexVal d with
  | some a, some b, some c, some d => some (a * 4096 + b * 256 + c * 16 + d)
  | _, _, _, _ => none

/-- The character a two-character escape of RFC 8259 stands for. -/
def simpleEscape (e : Nat) : Option Nat :=
  if e = 0x22 then some 0x22          -- \"
  else if e = 0x5C then some 0x5C     -- \\
  else if e = 0x2F then some 0x2F     -- \/
  else if e = 0x62 then some 0x08     -- \b
  else if e = 0x66 then some 0x0C     -- \f
  else if e = 0x6E then some 0x0A     -- \n
  else if e = 0x72 then some 0x0D     -- \r
  else if e = 0x74 then some 0x09     -- \t
  else none

/-- RFC 8259 section 7, the characters of a string after its opening quote up
to and including the closing quote, which must be the last code point: every
unescaped character and two-character escape gives its code point, every
`\uXXXX` gives a UTF-16 code unit. -/
def jsonUnits : List Nat → Except JsonError (List Nat)
  | [] => .error .unterminated
  | b :: rest =>
    if b = 0x22 then (if rest.isEmpty then .ok [] else .error .trailing)
    else if b = 0x5C then
      match rest with
      | [] => .error .unterminated
      | e :: rest1 =>
        if e = 0x75 then
          match rest1 with
          | h1 :: h2 :: h3 :: h4 :: rest2 =>
            match hex4 h1 h2 h3 h4 with
            | some u => (jsonUnits rest2).map (fun us => u :: us)
            | none => .error .badHex
          | _ => .error .badHex
        else
          match simpleEscape e with
          | some v => (jsonUnits rest1).map (fun us => v :: us)
          | none => .error .badEscape
    else if b < 0x20 then .error .control
    else (jsonUnits rest).map (fun us => b :: us)

/-- A high surrogate followed by a low surrogate is one scalar; a surrogate
without its partner is not text. -/
def combineSurrogates : List Nat → Except JsonError (List Nat)
  | [] => .ok []
  | u :: rest =>
    if 0xD800 ≤ u ∧ u ≤ 0xDBFF then
      match rest with
      | [] => .error .loneSurrogate
      | v :: rest1 =>
        if 0xDC00 ≤ v ∧ v ≤ 0xDFFF then
          (combineSurrogates rest1).map
            (fun cs => (0x10000 + (u - 0xD800) * 1024 + (v - 0xDC00)) :: cs)
        else .error .loneSurrogate
    else if 0xDC00 ≤ u ∧ u ≤ 0xDFFF then .error .loneSurrogate
    else (combineSurrogates rest).map (fun cs => u :: cs)

/-- A conforming decoder of an RFC 8259 JSON string: the bytes must be valid
UTF-8, start with a quote and end with the closing quote; the value is the text
the string denotes. -/
def jsonString (bytes : GoString) : Except JsonError (List Nat) :=
  let cps := stringToRunes bytes
  if runesToString cps ≠ bytes then .error .badUTF8 else
  match cps with
  | [] => .error .noOpeningQuote
  | q :: rest =>
    if q ≠ 0x22 then .error .noOpeningQuote else
    jsonUnits rest >>= combineSurrogates

/-- The fragment `frag` wrapped in double quotes and parsed as a JSON string. -/
def parseQuoted (frag : GoString) : Except JsonError (List Nat) :=
  jsonString ([0x22] ++ frag ++ [0x22])

/-! ## Reading the output back -/

/-- A reader of one rune's output, used to show that the output determines
the text: a backslash starts an escape (`\u` with four hex digits, followed by
a second `\u` escape when the first is a high surrogate; `\x` with two hex
digits; a letter escape; or an escaped quote or backslash), any other byte
stands for itself.  Gives the rune and the bytes after it. -/
def decodeOne (bs : List Nat) : Option (Nat × List Nat) :=
  match bs with
  | [] => none
  | b :: rest =>
    if b ≠ 0x5C then some (b, rest)
    else
      match rest with
      | [] => none
      | e :: rest1 =>
        if e = 0x75 then
          match rest1 with
          | h1 :: h2 :: h3 :: h4 :: rest2 =>
            match hex4 h1 h2 h3 h4 with
            | none => none
            | some u =>
              if 0xD800 ≤ u ∧ u ≤ 0xDBFF then
                match rest2 with
                | _ :: _ :: l1 :: l2 :: l3 :: l4 :: rest3 =>
                  match hex4 l1 l2 l3 l4 with
                  | none => none
                  | some v => some (0x10000 + (u - 0xD800) * 1024 + (v - 0xDC00), rest3)
                | _ => none
              else some (u, rest2)
          | _ => none
        else if e = 0x78 then
          match rest1 with
          | h1 :: h2 :: rest2 =>
            match hexVal h1, hexVal h2 with
            | some a, some b => some (a * 16 + b, rest2)
            | _, _ => none
          | _ => none
        else if e = 0x61 then some (0x07, rest1)
        else if e = 0x62 then some (0x08, rest1)
        else if e = 0x66 then some (0x0C, rest1)
        else if e = 0x6E then some (0x0A, rest1)
        else if e = 0x72 then some (0x0D, rest1)
        else if e = 0x74 then some (0x09, rest1)
        else if e = 0x76 then some (0x0B, rest1)
        else some (e, rest1)

/-! ## Example values -/

/-- A client for the examples: it supports only the model `gpt-3.5-turbo`, its
builder hands the request on as the built request, and its transport answers
with a fixed response. -/
def exampleClient : Client Unit ChatCompletionRequest Unit where
  checkEndpointSupportsModel := fun _ model => decide (model = asc "gpt-3.5-turbo")
  fullURL := fun suffix _ => asc "https://api.openai.com/v1" ++ suffix
  build := fun _ _ _ _ body => .ok body
  sendRequest := fun _ _ resp => ({ resp with ID := asc "x" }, none)

/-- A request for the examples with the given model and stream flag. -/
def exampleRequest (model : GoString) (stream : Bool) : ChatCompletionRequest :=
  { Model := model, Messages := some [⟨asc "user", asc "hi", []⟩], MaxTokens := 0,
    Temperature := ⟨0⟩, TopP := ⟨0⟩, N := 0, Stream := stream, Stop := [],
    PresencePenalty := ⟨0⟩, FrequencyPenalty := ⟨0⟩, LogitBias := [], User := [] }

/-- A client whose transport decodes part of a reply into the response and then
reports an error, as a JSON decoder does on a reply with a field of the wrong
type. -/
def partialDecodeClient : Client Unit ChatCompletionRequest GoString where
  checkEndpointSupportsModel := fun _ model => decide (model = asc "gpt-3.5-turbo")
  fullURL := fun suffix _ => asc "https://api.openai.com/v1" ++ suffix
  build := fun _ _ _ _ body => .ok body
  sendRequest := fun _ _ resp => ({ resp with ID := asc "x" }, some (asc "cannot unmarshal"))

/-- The keys the specification gives the request object: `model` and
`messages` always, each optional key when its field is not at its zero value,
in the order of the fields. -/
def expectedKeys (r : ChatCompletionRequest) : List GoString :=
  [asc "model", asc "messages"]
    ++ (if r.MaxTokens ≠ 0 then [asc "max_tokens"] else [])
    ++ (if r.Temperature.isZero then [] else [asc "temperature"])
    ++ (if r.TopP.isZero then [] else [asc "top_p"])
    ++ (if r.N ≠ 0 then [asc "n"] else [])
    ++ (if r.Stream = true then [asc "stream"] else [])
    ++ (if r.Stop ≠ [] then [asc "stop"] else [])
    ++ (if r.PresencePenalty.isZero then [] else [asc "presence_penalty"])
    ++ (if r.FrequencyPenalty.isZero then [] else [asc "frequency_penalty"])
    ++ (if r.LogitBias ≠ [] then [asc "logit_bias"] else [])
    ++ (if r.User ≠ [] then [asc "user"] else [])

/-- A request with the given message content, Model `gpt-3.5-turbo`, Role
`user`, and every other field at its zero value but the ones given. -/
def requestWith (content : GoString) (maxTokens : Int) (temperature : Float32) :
    ChatCompletionRequest :=
  { Model := asc "gpt-3.5-turbo", Messages := some [⟨asc "user", content, []⟩],
    MaxTokens := maxTokens, Temperature := temperature, TopP := ⟨0⟩, N := 0, Stream := false,
    Stop := [], PresencePenalty := ⟨0⟩, FrequencyPenalty := ⟨0⟩, LogitBias := [], User := [] }

/-- A request whose temperature is a NaN; its messages are the nil slice, and
every other field is at its zero value. -/
def nanTemperatureRequest : ChatCompletionRequest :=
  { Model := asc "gpt-3.5-turbo", Messages := none, MaxTokens := 0, Temperature := ⟨0x7FC00000⟩,
    TopP := ⟨0⟩, N := 0, Stream := false, Stop := [], PresencePenalty := ⟨0⟩,
    FrequencyPenalty := ⟨0⟩, LogitBias := [], User := [] }


/-! ## UTF-8, quoting and formatting lemmas -/

theorem decode_one (b0 : Nat) (rest : GoString) (h : b0 < 0x80) :
    DecodeRuneInString (b0 :: rest) = (b0, 1) := by
  have hf : first b0 = 0xF0 := by simp only [first]; split_ifs; rfl
  unfold DecodeRuneInString
  simp only [List.length_cons, List.getD_cons_zero, hf]
  simp

theorem decode_two (b0 b1 : Nat) (rest : GoString) (h0 : 0xC2 ≤ b0) (h0' : b0 < 0xE0)
    (h1 : 0x80 ≤ b1) (h1' : b1 ≤ 0xBF) :
    DecodeRuneInString (b0 :: b1 :: rest) = ((b0 % 32) * 64 + b1 % 64, 2) := by
  have hf : first b0 = 0x02 := by simp only [first]; split_ifs <;> first | rfl | omega
  unfold DecodeRuneInString
  simp only [List.length_cons, List.getD_cons_zero, List.getD_cons_succ, hf, acceptRanges]
  simp
  rw [if_neg (by omega), if_neg (by omega)]

theorem decode_three (b0 b1 b2 : Nat) (rest : GoString) (h0 : 0xE0 ≤ b0) (h0' : b0 < 0xF0)
    (h1 : 0x80 ≤ b1) (h1' : b1 ≤ 0xBF) (hE0 : b0 = 0xE0 → 0xA0 ≤ b1) (hED : b0 = 0xED → b1 ≤ 0x9F)
    (h2 : 0x80 ≤ b2) (h2' : b2 ≤ 0xBF) :
    DecodeRuneInString (b0 :: b1 :: b2 :: rest)
      = ((b0 % 16) * 4096 + (b1 % 64) * 64 + b2 % 64, 3) := by
  unfold DecodeRuneInString
  simp only [List.length_cons, List.getD_cons_zero, List.getD_cons_succ]
  by_cases e0 : b0 = 0xE0
  · have hf : first b0 = 0x13 := by subst e0; rfl
    have := hE0 e0
    simp only [hf, acceptRanges]
    simp
    rw [if_neg (by omega), if_neg (by omega), if_neg (by omega)]
  by_cases eD : b0 = 0xED
  · have hf : first b0 = 0x23 := by subst eD; rfl
    have := hED eD
    simp only [hf, acceptRanges]
    simp
    rw [if_neg (by omega), if_neg (by omega), if_neg (by omega)]
  have hf : first b0 = 0x03 := by simp only [first]; split_ifs <;> first | rfl | omega
  simp only [hf, acceptRanges]
  simp
  rw [if_neg (by omega), if_neg (by omega), if_neg (by omega)]

theorem decode_four (b0 b1 b2 b3 : Nat) (rest : GoString) (h0 : 0xF0 ≤ b0) (h0' : b0 ≤ 0xF4)
    (h1 : 0x80 ≤ b1) (h1' : b1 ≤ 0xBF) (hF0 : b0 = 0xF0 → 0x90 ≤ b1) (hF4 : b0 = 0xF4 → b1 ≤ 0x8F)
    (h2 : 0x80 ≤ b2) (h2' : b2 ≤ 0xBF) (h3 : 0x80 ≤ b3) (h3' : b3 ≤ 0xBF) :
    DecodeRuneInString (b0 :: b1 :: b2 :: b3 :: rest)
      = ((b0 % 8) * 262144 + (b1 % 64) * 4096 + (b2 % 64) * 64 + b3 % 64, 4) := by
  unfold DecodeRuneInString
  simp only [List.length_cons, List.getD_cons_zero, List.getD_cons_succ]
  by_cases e0 : b0 = 0xF0
  · have hf : first b0 = 0x34 := by subst e0; rfl
    have := hF0 e0
    simp only [hf, acceptRanges]
    simp
    rw [if_neg (by omega), if_neg (by omega), if_neg (by omega), if_neg (by omega)]
  by_cases e4 : b0 = 0xF4
  · have hf : first b0 = 0x44 := by subst e4; rfl
    have := hF4 e4
    simp only [hf, acceptRanges]
    simp
    rw [if_neg (by omega), if_neg (by omega), if_neg (by omega), if_neg (by omega)]
  have hf : first b0 = 0x04 := by simp only [first]; split_ifs <;> first | rfl | omega
  simp only [hf, acceptRanges]
  simp
  rw [if_neg (by omega), if_neg (by omega), if_neg (by omega), if_neg (by omega)]

theorem validRune_iff (r : Nat) :
    ValidRune r = true ↔ (r < 0xD800 ∨ (0xDFFF < r ∧ r ≤ 0x10FFFF)) := by
  simp [ValidRune, MaxRune]

theorem decode_encode (r : Nat) (h : ValidRune r = true) (rest : GoString) :
    DecodeRuneInString (encodeRune r ++ rest) = (r, (encodeRune r).length) := by
  rw [validRune_iff] at h
  unfold encodeRune
  by_cases h1 : r ≤ 0x7F
  · rw [if_pos h1]
    exact decode_one r rest (by omega)
  rw [if_neg h1]
  by_cases h2 : r ≤ 0x7FF
  · rw [if_pos h2]
    simp only [List.cons_append, List.nil_append, List.length_cons, List.length_nil]
    rw [decode_two _ _ _ (by omega) (by omega) (by omega) (by omega)]
    congr 1
    omega
  rw [if_neg h2, if_neg (by simp only [MaxRune]; omega)]
  by_cases h3 : r ≤ 0xFFFF
  · rw [if_pos h3]
    simp only [List.cons_append, List.nil_append, List.length_cons, List.length_nil]
    rw [decode_three _ _ _ _ (by omega) (by omega) (by omega) (by omega) (by omega) (by omega)
      (by omega) (by omega)]
    congr 1
    omega
  rw [if_neg h3]
  simp only [List.cons_append, List.nil_append, List.length_cons, List.length_nil]
  rw [decode_four _ _ _ _ _ (by omega) (by omega) (by omega) (by omega) (by omega) (by omega)
      (by omega) (by omega) (by omega) (by omega)]
  congr 1
  omega

theorem encodeRune_length_pos (r : Nat) : 0 < (encodeRune r).length := by
  unfold encodeRune
  split_ifs <;> simp


theorem encodeRune_length_le (r : Nat) : (encodeRune r).length ≤ 4 := by
  unfold encodeRune
  split_ifs <;> simp

theorem runesToString_cons (r : Nat) (rs : List Nat) :
    runesToString (r :: rs) = encodeRune r ++ runesToString rs := by
  simp [runesToString]

theorem runesToString_append (xs ys : List Nat) :
    runesToString (xs ++ ys) = runesToString xs ++ runesToString ys := by
  simp [runesToString]

theorem stringToRunesAux_runesToString (rs : List Nat) (h : ∀ r ∈ rs, ValidRune r = true) :
    ∀ fuel, (runesToString rs).length ≤ fuel →
      stringToRunesAux fuel (runesToString rs) = rs := by
  induction rs with
  | nil =>
    intro fuel _
    cases fuel <;> simp [stringToRunesAux, runesToString]
  | cons r rs ih =>
    intro fuel hfuel
    have hr : ValidRune r = true := h r (List.mem_cons_self _ _)
    have hrs : ∀ x ∈ rs, ValidRune x = true := fun x hx => h x (List.mem_cons_of_mem _ hx)
    have hpos := encodeRune_length_pos r
    rw [runesToString_cons] at hfuel ⊢
    rw [List.length_append] at hfuel
    cases fuel with
    | zero => omega
    | succ fuel =>
      simp only [stringToRunesAux]
      rw [if_neg (by rw [List.length_append]; omega)]
      simp only [decode_encode r hr, List.drop_left]
      rw [ih hrs fuel (by omega)]

theorem stringToRunes_runesToString (rs : List Nat) (h : ∀ r ∈ rs, ValidRune r = true) :
    stringToRunes (runesToString rs) = rs :=
  stringToRunesAux_runesToString rs h _ (le_refl _)

theorem appendEscapedRune_eq (buf : GoString) (r : Nat) :
    appendEscapedRune buf r = buf ++ appendEscapedRune [] r := by
  simp only [appendEscapedRune, List.nil_append, apply_ite (HAppend.hAppend buf)]

theorem encodeRune_head (r : Nat) (rest : GoString) :
    (r ≤ 0x7F ∧ encodeRune r = [r]) ∨
    (0x7F < r ∧ 0x80 ≤ (encodeRune r ++ rest).getD 0 0 ∧ 2 ≤ (encodeRune r).length) := by
  unfold encodeRune
  by_cases h1 : r ≤ 0x7F
  · left; simp [h1]
  right
  refine ⟨by omega, ?_⟩
  rw [if_neg h1]
  split_ifs <;> simp <;> omega

theorem appendQuotedLoop_runes (rs : List Nat) (h : ∀ r ∈ rs, ValidRune r = true) :
    ∀ fuel buf, (runesToString rs).length ≤ fuel →
      appendQuotedLoop fuel buf (runesToString rs)
        = buf ++ rs.flatMap (appendEscapedRune []) := by
  induction rs with
  | nil =>
    intro fuel buf _
    cases fuel <;> simp [appendQuotedLoop, runesToString]
  | cons r rs ih =>
    intro fuel buf hfuel
    have hr : ValidRune r = true := h r (List.mem_cons_self _ _)
    have hrs : ∀ x ∈ rs, ValidRune x = true := fun x hx => h x (List.mem_cons_of_mem _ hx)
    have hpos := encodeRune_length_pos r
    rw [runesToString_cons] at hfuel ⊢
    rw [List.length_append] at hfuel
    cases fuel with
    | zero => omega
    | succ fuel =>
      simp only [appendQuotedLoop]
      rw [if_neg (by rw [List.length_append]; omega)]
      have hstep : (if (encodeRune r ++ runesToString rs).getD 0 0 ≥ 0x80
            then DecodeRuneInString (encodeRune r ++ runesToString rs)
            else ((encodeRune r ++ runesToString rs).getD 0 0, 1))
          = (r, (encodeRune r).length) := by
        rcases encodeRune_head r (runesToString rs) with ⟨h1, h2⟩ | ⟨_, h2, _⟩
        · rw [h2]
          simp only [List.singleton_append, List.getD_cons_zero, List.length_singleton]
          rw [if_neg (by omega)]
        · rw [if_pos h2, decode_encode r hr]
      rw [hstep]
      have hne : ¬ ((encodeRune r).length = 1 ∧ r = RuneError) := by
        rintro ⟨hl, he⟩
        rcases encodeRune_head r [] with ⟨h1, _⟩ | ⟨_, _, h3⟩
        · simp only [RuneError] at he; omega
        · omega
      simp only [hne, if_false, List.drop_left]
      rw [ih hrs fuel _ (by omega), appendEscapedRune_eq buf r]
      simp [List.append_assoc]

theorem appendQuotedLoop_prefix : ∀ (fuel : Nat) (buf s : GoString),
    ∃ t, appendQuotedLoop fuel buf s = buf ++ t := by
  intro fuel
  induction fuel with
  | zero => intro buf s; exact ⟨[], by simp [appendQuotedLoop]⟩
  | succ fuel ih =>
    intro buf s
    simp only [appendQuotedLoop]
    by_cases h0 : s.length = 0
    · rw [if_pos h0]
      exact ⟨[], by simp⟩
    rw [if_neg h0]
    generalize (if s.getD 0 0 ≥ 0x80 then DecodeRuneInString s else (s.getD 0 0, 1)) = rw
    by_cases h1 : rw.2 = 1 ∧ rw.1 = RuneError
    · rw [if_pos h1]
      obtain ⟨t, ht⟩ := ih (buf ++ [0x5C, 0x78, lowerhex (s.getD 0 0 / 16),
        lowerhex (s.getD 0 0 % 16)]) (s.drop rw.2)
      exact ⟨_, by rw [ht, List.append_assoc]⟩
    · rw [if_neg h1]
      obtain ⟨t, ht⟩ := ih (appendEscapedRune buf rw.1) (s.drop rw.2)
      exact ⟨_, by rw [ht, appendEscapedRune_eq, List.append_assoc]⟩

theorem QuoteToASCII_shape (s : GoString) : ∃ t, QuoteToASCII s = 0x22 :: (t ++ [0x22]) := by
  obtain ⟨t, ht⟩ := appendQuotedLoop_prefix s.length [0x22] s
  exact ⟨t, by simp [QuoteToASCII, ht]⟩

theorem QuoteToASCII_length (s : GoString) : 2 ≤ (QuoteToASCII s).length := by
  obtain ⟨t, ht⟩ := QuoteToASCII_shape s
  simp [ht]

theorem QuoteToASCII_runes (rs : List Nat) (h : ∀ r ∈ rs, ValidRune r = true) :
    QuoteToASCII (runesToString rs)
      = 0x22 :: (rs.flatMap (appendEscapedRune []) ++ [0x22]) := by
  simp [QuoteToASCII, appendQuotedLoop_runes rs h _ _ (le_refl _)]

theorem stripEnds_quoted {α : Type} (a b : α) (t : List α) :
    stripEnds (a :: (t ++ [b])) = t := by
  simp [stripEnds]

theorem sliceOf_interior {α : Type} (rt : List α) (h : 2 ≤ rt.length) :
    sliceOf rt 1 ((rt.length : Int) - 1) = .ok (stripEnds rt) := by
  unfold sliceOf stripEnds
  rw [if_pos (by omega)]
  congr 1
  rw [List.dropLast_eq_take, List.length_drop]
  congr 1
  omega

theorem writeQuoted_eq (ws : List Write) (run : List Nat) :
    writeQuoted ws run
      = .ok (ws ++ [⟨.quoted, stripEnds (QuoteToASCII (runesToString run))⟩]) := by
  unfold writeQuoted
  simp only [sliceOf_interior _ (QuoteToASCII_length _)]
  rfl

theorem sliceOf_mid {α : Type} (pre mid rest : List α) :
    sliceOf (pre ++ mid ++ rest) (pre.length : Int) ((pre.length + mid.length : Nat) : Int)
      = .ok mid := by
  unfold sliceOf
  rw [if_pos (by simp only [List.length_append]; omega)]
  have e1 : ((pre.length : Int)).toNat = pre.length := by omega
  have e2 : (((pre.length + mid.length : Nat) : Int)).toNat - (pre.length : Int).toNat
      = mid.length := by omega
  rw [e2, e1]
  simp [List.append_assoc]

theorem finalFlush_eq (pre pending : List Nat) (ws : List Write) :
    finalFlush (pre ++ pending) (ws, pre.length) = .ok (ws ++ flushWrites pending) := by
  unfold finalFlush flushWrites
  cases pending with
  | nil => simp; rfl
  | cons p ps =>
    rw [if_pos (by simp)]
    have h := sliceOf_mid pre (p :: ps) []
    simp only [List.append_nil] at h
    rw [List.length_append, h]
    simp only [List.isEmpty_cons, Bool.false_eq_true, if_false]
    exact writeQuoted_eq ws (p :: ps)

theorem loopBody_supp (pre pending rest : List Nat) (r : Nat) (ws : List Write)
    (hr : r ≥ 0x10000) :
    loopBody (pre ++ pending ++ r :: rest) (pre.length + pending.length) r (ws, pre.length)
      = .ok (ws ++ flushWrites pending ++ [pairWrite r], pre.length + pending.length + 1) := by
  unfold loopBody flushWrites
  rw [if_pos hr]
  cases pending with
  | nil => simp [pairWrite]; rfl
  | cons p ps =>
    simp only [List.length_cons, List.isEmpty_cons, Bool.false_eq_true, if_false]
    rw [if_pos (by omega)]
    have h := sliceOf_mid pre (p :: ps) (r :: rest)
    simp only [List.length_cons] at h
    rw [h]
    simp only [writeQuoted_eq, pairWrite, quotedWrite]
    rfl

theorem rangeLoop_spec (tmpRune : List Nat) :
    ∀ (rest pre pending : List Nat) (ws : List Write), tmpRune = pre ++ pending ++ rest →
      (rangeLoop tmpRune (pre.length + pending.length) rest (ws, pre.length)
        >>= finalFlush tmpRune) = .ok (ws ++ writesFrom pending rest) := by
  intro rest
  induction rest with
  | nil =>
    intro pre pending ws h
    subst h
    simp only [rangeLoop, List.append_nil, writesFrom]
    exact finalFlush_eq pre pending ws
  | cons r rest ih =>
    intro pre pending ws h
    simp only [rangeLoop, writesFrom]
    by_cases hr : r ≥ 0x10000
    · rw [if_pos hr]
      have hb := loopBody_supp pre pending rest r ws hr
      rw [← h] at hb
      rw [hb]
      have := ih (pre ++ pending ++ [r]) [] (ws ++ flushWrites pending ++ [pairWrite r])
        (by simp [h])
      simp only [List.length_append, List.length_singleton, List.length_nil, Nat.add_zero] at this
      simp only [List.append_assoc, List.singleton_append] at this ⊢
      exact this
    · rw [if_neg hr]
      have hb : loopBody tmpRune (pre.length + pending.length) r (ws, pre.length)
          = .ok (ws, pre.length) := by
        unfold loopBody
        rw [if_neg hr]
        rfl
      rw [hb]
      have := ih pre (pending ++ [r]) ws (by simp [h])
      simp only [List.length_append, List.length_singleton] at this
      exact this

theorem marshalWrites_eq (c : GoString) :
    marshalWrites c = .ok (writesFrom [] (stringToRunes c)) := by
  have h := rangeLoop_spec (stringToRunes c) (stringToRunes c) [] [] [] (by simp)
  simpa [marshalWrites] using h

theorem MarshalJSON_eq (c : GoString) :
    MarshalJSON c = .ok (builderString (writesFrom [] (stringToRunes c)), none) := by
  simp only [MarshalJSON, marshalWrites_eq]
  rfl

theorem lowerhex_eq_spec (d : Nat) (h : d < 16) : lowerhex d = specHexDigit d := by
  interval_cases d <;> rfl

theorem specHexDigit_lt (d : Nat) (h : d < 16) : specHexDigit d < 0x80 := by
  interval_cases d <;> decide

theorem specHexDigit_ne (d : Nat) (h : d < 16) : specHexDigit d ≠ 0x55 := by
  interval_cases d <;> decide

theorem hexVal_specHexDigit (d : Nat) (h : d < 16) : hexVal (specHexDigit d) = some d := by
  interval_cases d <;> rfl

theorem fmtHex_four (u : Nat) (h1 : 0x1000 ≤ u) (h2 : u < 0x10000) :
    fmtHex u = specHex4 u := by
  unfold fmtHex specHex4
  simp only [fmtHexRev]
  rw [if_pos (by omega), if_pos (by omega), if_pos (by omega), if_neg (by omega)]
  simp only [List.reverse_cons, List.reverse_nil, List.nil_append, List.cons_append]
  rw [lowerhex_eq_spec _ (by omega), lowerhex_eq_spec _ (by omega),
    lowerhex_eq_spec _ (by omega), lowerhex_eq_spec _ (by omega)]
  have e1 : u / 16 / 16 / 16 = u / 4096 % 16 := by omega
  have e2 : u / 16 / 16 % 16 = u / 256 % 16 := by omega
  rw [e1, e2]

theorem EncodeRune_supp (r : Nat) (h1 : 0x10000 ≤ r) (h2 : r ≤ 0x10FFFF) :
    EncodeRune r = (specHi r, specLo r) := by
  unfold EncodeRune specHi specLo
  rw [if_neg (by simp only [MaxRune]; omega)]
  have e : (r - 0x10000) / 1024 % 1024 = (r - 0x10000) / 1024 := by omega
  simp only [e]

theorem pairWrite_text (r : Nat) (h1 : 0x10000 ≤ r) (h2 : r ≤ 0x10FFFF) :
    (pairWrite r).text = specPairEscape r := by
  simp only [pairWrite, sprintfPair, specPairEscape, EncodeRune_supp r h1 h2]
  rw [fmtHex_four _ (by unfold specHi; omega) (by unfold specHi; omega),
    fmtHex_four _ (by unfold specLo; omega) (by unfold specLo; omega)]

theorem encodeRune_ascii (b : Nat) (h : b < 0x80) : encodeRune b = [b] := by
  unfold encodeRune
  rw [if_pos (by omega)]

theorem runesToString_ascii (s : List Nat) (h : ∀ b ∈ s, b < 0x80) : runesToString s = s := by
  induction s with
  | nil => rfl
  | cons b s ih =>
    rw [runesToString_cons, encodeRune_ascii b (h b (List.mem_cons_self _ _)),
      ih (fun x hx => h x (List.mem_cons_of_mem _ hx))]
    rfl

theorem stringToRunes_ascii (s : List Nat) (h : ∀ b ∈ s, b < 0x80) : stringToRunes s = s := by
  have hv : ∀ r ∈ s, ValidRune r = true := by
    intro r hr
    have := h r hr
    rw [validRune_iff]
    omega
  have := stringToRunes_runesToString s hv
  rwa [runesToString_ascii s h] at this

theorem isScalar_eq_ValidRune (c : Nat) : isScalar c = ValidRune c := by
  simp only [isScalar, ValidRune, MaxRune]
  rfl

theorem specPairEscape_ascii (c : Nat) : ∀ b ∈ specPairEscape c, b < 0x80 := by
  intro b hb
  simp only [specPairEscape, specHex4, List.cons_append, List.nil_append, List.mem_cons,
    List.mem_singleton, List.not_mem_nil, or_false] at hb
  rcases hb with h | h | h | h | h | h | h | h | h | h | h | h <;>
    first
    | (rw [h]; exact specHexDigit_lt _ (Nat.mod_lt _ (by norm_num)))
    | (rw [h]; norm_num)

theorem jsonString_ascii (bs : List Nat) (h : ∀ b ∈ bs, b < 0x80) :
    jsonString (0x22 :: bs) = (jsonUnits bs >>= combineSurrogates) := by
  have hascii : ∀ b ∈ 0x22 :: bs, b < 0x80 := by
    intro b hb
    rcases List.mem_cons.mp hb with h0 | h0
    · omega
    · exact h b h0
  unfold jsonString
  simp only [stringToRunes_ascii _ hascii, runesToString_ascii _ hascii]
  simp

theorem jsonUnits_u (a b c d u : Nat) (rest : List Nat) (h : hex4 a b c d = some u) :
    jsonUnits (0x5C :: 0x75 :: a :: b :: c :: d :: rest)
      = (jsonUnits rest).map (fun us => u :: us) := by
  simp [jsonUnits, h]

theorem hex4_spec (u : Nat) (h : u < 0x10000) :
    hex4 (specHexDigit (u / 4096 % 16)) (specHexDigit (u / 256 % 16))
      (specHexDigit (u / 16 % 16)) (specHexDigit (u % 16)) = some u := by
  have hm : ∀ n : Nat, n % 16 < 16 := fun n => Nat.mod_lt _ (by norm_num)
  simp only [hex4, hexVal_specHexDigit _ (hm _)]
  congr 1
  omega

theorem combineSurrogates_pair (u v : Nat) (hu : 0xD800 ≤ u ∧ u ≤ 0xDBFF)
    (hv : 0xDC00 ≤ v ∧ v ≤ 0xDFFF) :
    combineSurrogates [u, v] = .ok [0x10000 + (u - 0xD800) * 1024 + (v - 0xDC00)] := by
  rw [combineSurrogates, if_pos hu]
  rw [if_pos hv, combineSurrogates]
  rfl

theorem specHi_range (c : Nat) (h1 : 0x10000 ≤ c) (h2 : c ≤ 0x10FFFF) :
    0xD800 ≤ specHi c ∧ specHi c ≤ 0xDBFF := by
  unfold specHi
  omega

theorem specLo_range (c : Nat) : 0xDC00 ≤ specLo c ∧ specLo c ≤ 0xDFFF := by
  unfold specLo
  omega

theorem spec_combine (c : Nat) (h1 : 0x10000 ≤ c) :
    0x10000 + (specHi c - 0xD800) * 1024 + (specLo c - 0xDC00) = c := by
  unfold specHi specLo
  omega

theorem jsonUnits_specPairEscape (c : Nat) (h1 : 0x10000 ≤ c) (h2 : c ≤ 0x10FFFF) :
    jsonUnits (specPairEscape c ++ [0x22]) = .ok [specHi c, specLo c] := by
  have hhi := (specHi_range c h1 h2).2
  have hlo := (specLo_range c).2
  simp only [specPairEscape, specHex4, List.cons_append, List.nil_append]
  rw [jsonUnits_u _ _ _ _ _ _ (hex4_spec _ (by omega)),
    jsonUnits_u _ _ _ _ _ _ (hex4_spec _ (by omega))]
  have hq : jsonUnits [0x22] = .ok [] := by simp [jsonUnits]
  rw [hq]
  rfl

theorem except_ok_bind {ε α β : Type} (x : α) (f : α → Except ε β) :
    (Except.ok x >>= f) = f x := rfl

theorem parseQuoted_specPairEscape (c : Nat) (h1 : 0x10000 ≤ c) (h2 : c ≤ 0x10FFFF) :
    parseQuoted (specPairEscape c) = .ok [c] := by
  have hascii : ∀ b ∈ specPairEscape c ++ [0x22], b < 0x80 := by
    intro b hb
    rcases List.mem_append.mp hb with h | h
    · exact specPairEscape_ascii c b h
    · simp only [List.mem_singleton] at h
      omega
  unfold parseQuoted
  rw [List.append_assoc, List.singleton_append, jsonString_ascii _ hascii,
    jsonUnits_specPairEscape c h1 h2, except_ok_bind,
    combineSurrogates_pair _ _ (specHi_range c h1 h2) (specLo_range c), spec_combine c h1]

/-! ## The loop against the split into segments -/

theorem segments_cons_bmp (c : Nat) (cs : List Nat) (h : c < 0x10000) :
    segments (c :: cs) = consBmp c (segments cs) := by
  rw [segments, if_pos h]

theorem segments_cons_supp (c : Nat) (cs : List Nat) (h : ¬ c < 0x10000) :
    segments (c :: cs) = .supp c :: segments cs := by
  rw [segments, if_neg h]

theorem segments_run_append_supp (run : List Nat) (hrun : ∀ c ∈ run, c < 0x10000)
    (c : Nat) (rest : List Nat) (hc : ¬ c < 0x10000) :
    segments (run ++ c :: rest)
      = (if run.isEmpty then [] else [.bmpRun run]) ++ .supp c :: segments rest := by
  induction run with
  | nil => simp [segments_cons_supp c rest hc]
  | cons a run ih =>
    have ha : a < 0x10000 := hrun a (List.mem_cons_self _ _)
    have ih1 := ih (fun x hx => hrun x (List.mem_cons_of_mem _ hx))
    rw [List.cons_append, segments_cons_bmp a _ ha, ih1]
    cases run with
    | nil => simp [consBmp]
    | cons b run => simp [consBmp]

theorem segments_run (run : List Nat) (hrun : ∀ c ∈ run, c < 0x10000) :
    segments run = if run.isEmpty then [] else [.bmpRun run] := by
  induction run with
  | nil => simp [segments]
  | cons a run ih =>
    have ha : a < 0x10000 := hrun a (List.mem_cons_self _ _)
    have ih1 := ih (fun x hx => hrun x (List.mem_cons_of_mem _ hx))
    rw [segments_cons_bmp a _ ha, ih1]
    cases run with
    | nil => simp [consBmp]
    | cons b run => simp [consBmp]

theorem builderString_append (xs ys : List Write) :
    builderString (xs ++ ys) = builderString xs ++ builderString ys := by
  simp [builderString]

theorem builderString_cons (w : Write) (ws : List Write) :
    builderString (w :: ws) = w.text ++ builderString ws := by
  simp [builderString]

theorem builderString_flushWrites (pending : List Nat) :
    builderString (flushWrites pending)
      = (if pending.isEmpty then [] else [Segment.bmpRun pending]).flatMap segmentPiece := by
  unfold flushWrites
  cases pending with
  | nil => simp [builderString]
  | cons a run => simp [builderString, quotedWrite, segmentPiece]

theorem writesFrom_pieces (s : List Nat) (hs : ∀ c ∈ s, c ≤ 0x10FFFF) :
    ∀ pending : List Nat, (∀ c ∈ pending, c < 0x10000) →
      builderString (writesFrom pending s) = (segments (pending ++ s)).flatMap segmentPiece := by
  induction s with
  | nil =>
    intro pending hp
    rw [writesFrom, List.append_nil, segments_run pending hp, builderString_flushWrites]
  | cons r rest ih =>
    intro pending hp
    have hrest : ∀ c ∈ rest, c ≤ 0x10FFFF := fun x hx => hs x (List.mem_cons_of_mem _ hx)
    have hr : r ≤ 0x10FFFF := hs r (List.mem_cons_self _ _)
    rw [writesFrom]
    by_cases h : r ≥ 0x10000
    · rw [if_pos h, segments_run_append_supp pending hp r rest (by omega),
        builderString_append, builderString_cons, builderString_flushWrites,
        pairWrite_text r h hr, ih hrest [] (by simp)]
      simp [List.flatMap_append, segmentPiece]
    · rw [if_neg h, ih hrest (pending ++ [r])]
      · simp
      · intro c hc
        rcases List.mem_append.mp hc with h1 | h1
        · exact hp c h1
        · simp only [List.mem_singleton] at h1
          omega

theorem isSegmentation_iff (s : List Nat) (segs : List Segment) :
    isSegmentation s segs = true ↔
      segs.flatMap Segment.scalars = s ∧ (∀ g ∈ segs, g.ok = true)
        ∧ noAdjacentRuns segs = true := by
  simp [isSegmentation, List.all_eq_true, and_assoc]

theorem noAdjacentRuns_tail (a : Segment) (segs : List Segment)
    (h : noAdjacentRuns (a :: segs) = true) : noAdjacentRuns segs = true := by
  cases segs with
  | nil => rfl
  | cons b rest =>
    simp only [noAdjacentRuns, Bool.and_eq_true] at h
    exact h.2

theorem noAdjacentRuns_cons (a : Segment) (segs : List Segment)
    (h : noAdjacentRuns segs = true)
    (ha : ∀ b rest, segs = b :: rest → (a.isRun && b.isRun) = false) :
    noAdjacentRuns (a :: segs) = true := by
  cases segs with
  | nil => rfl
  | cons b rest =>
    simp only [noAdjacentRuns, Bool.and_eq_true]
    exact ⟨by rw [ha b rest rfl]; rfl, h⟩

theorem segments_isSegmentation (s : List Nat) : isSegmentation s (segments s) = true := by
  rw [isSegmentation_iff]
  induction s with
  | nil => simp [segments, noAdjacentRuns]
  | cons c cs ih =>
    obtain ⟨ih1, ih2, ih3⟩ := ih
    by_cases h : c < 0x10000
    · rw [segments_cons_bmp c cs h]
      generalize segments cs = segs at ih1 ih2 ih3
      subst ih1
      cases segs with
      | nil => simp [consBmp, Segment.scalars, Segment.ok, noAdjacentRuns, h]
      | cons g more =>
        cases g with
        | bmpRun run =>
          have hg := ih2 _ (List.mem_cons_self _ _)
          simp only [Segment.ok, Bool.and_eq_true] at hg
          refine ⟨by simp [consBmp, Segment.scalars], ?_, ?_⟩
          · intro g hg1
            simp only [consBmp, List.mem_cons] at hg1
            rcases hg1 with h1 | h1
            · subst h1
              simp [Segment.ok, h, hg.2]
            · exact ih2 g (List.mem_cons_of_mem _ h1)
          · simp only [consBmp]
            cases more with
            | nil => rfl
            | cons m more1 =>
              simp only [noAdjacentRuns, Segment.isRun] at ih3 ⊢
              exact ih3
        | supp d =>
          refine ⟨by simp [consBmp, Segment.scalars], ?_, ?_⟩
          · intro g hg1
            simp only [consBmp, List.mem_cons] at hg1
            rcases hg1 with h1 | h1
            · subst h1
              simp [Segment.ok, h]
            · exact ih2 g (List.mem_cons.mpr h1)
          · simp only [consBmp]
            exact noAdjacentRuns_cons _ _ ih3 (by
              intro b rest hb
              simp only [List.cons.injEq] at hb
              rw [← hb.1]
              rfl)
    · rw [segments_cons_supp c cs h]
      refine ⟨by simp [Segment.scalars, ih1], ?_, ?_⟩
      · intro g hg1
        rcases List.mem_cons.mp hg1 with h1 | h1
        · subst h1
          simp only [Segment.ok, decide_eq_true_eq]
          omega
        · exact ih2 g h1
      · exact noAdjacentRuns_cons _ _ ih3 (fun b rest _ => rfl)

theorem segmentation_unique (segs : List Segment) :
    ∀ s : List Nat, isSegmentation s segs = true → segs = segments s := by
  induction segs with
  | nil =>
    intro s h
    rw [isSegmentation_iff] at h
    rw [← h.1]
    rfl
  | cons g more ih =>
    intro s h
    rw [isSegmentation_iff] at h
    obtain ⟨h1, h2, h3⟩ := h
    have hmore : isSegmentation (more.flatMap Segment.scalars) more = true := by
      rw [isSegmentation_iff]
      exact ⟨rfl, fun x hx => h2 x (List.mem_cons_of_mem _ hx), noAdjacentRuns_tail g more h3⟩
    have ihm := ih _ hmore
    have hg := h2 g (List.mem_cons_self _ _)
    subst h1
    cases g with
    | supp c =>
      simp only [Segment.ok, decide_eq_true_eq] at hg
      simp only [List.flatMap_cons, Segment.scalars, List.singleton_append]
      rw [segments_cons_supp c _ (by omega), ← ihm]
    | bmpRun run =>
      simp only [Segment.ok, Bool.and_eq_true, Bool.not_eq_true', List.all_eq_true,
        decide_eq_true_eq] at hg
      obtain ⟨hne, hbmp⟩ := hg
      simp only [List.flatMap_cons, Segment.scalars]
      cases more with
      | nil =>
        simp only [List.flatMap_nil, List.append_nil]
        rw [segments_run run hbmp, hne]
        rfl
      | cons m more1 =>
        cases m with
        | bmpRun run2 =>
          simp [noAdjacentRuns, Segment.isRun] at h3
        | supp c =>
          have hm := h2 (.supp c) (by simp)
          simp only [Segment.ok, decide_eq_true_eq] at hm
          simp only [List.flatMap_cons, Segment.scalars, List.singleton_append] at ihm ⊢
          rw [segments_run_append_supp run hbmp c _ (by omega), hne]
          rw [segments_cons_supp c _ (by omega)] at ihm
          simp only [List.cons.injEq, true_and] at ihm
          rw [← ihm]
          rfl

/-! ## The claims about `Content.MarshalJSON` and `CreateChatCompletion` -/

theorem isText_valid (s : List Nat) (hs : IsText s) : ∀ r ∈ s, ValidRune r = true := by
  intro r hr
  rw [← isScalar_eq_ValidRune]
  exact hs r hr

theorem isText_le (s : List Nat) (hs : IsText s) : ∀ r ∈ s, r ≤ 0x10FFFF := by
  intro r hr
  have := isText_valid s hs r hr
  rw [validRune_iff] at this
  omega

theorem MarshalJSON_text (s : List Nat) (hs : IsText s) :
    MarshalJSON (runesToString s) = .ok (builderString (writesFrom [] s), none) := by
  rw [MarshalJSON_eq, stringToRunes_runesToString s (isText_valid s hs)]

theorem supp_isText (c : Nat) (h1 : 0x10000 ≤ c) (h2 : c ≤ 0x10FFFF) : IsText [c] := by
  intro x hx
  simp only [List.mem_singleton] at hx
  subst hx
  rw [isScalar_eq_ValidRune, validRune_iff]
  omega

theorem MarshalJSON_supp (c : Nat) (h1 : 0x10000 ≤ c) (h2 : c ≤ 0x10FFFF) :
    MarshalJSON (runesToString [c]) = .ok (specPairEscape c, none) := by
  rw [MarshalJSON_text [c] (supp_isText c h1 h2)]
  simp only [writesFrom]
  rw [if_pos h1]
  simp only [flushWrites, List.isEmpty_nil, if_true, List.nil_append, builderString_cons,
    pairWrite_text c h1 h2]
  simp [builderString]

/-- C1: for every scalar `c` in U+10000..U+10FFFF, the fragment that
`Content.MarshalJSON` returns for the one-character text `c`, put between
double quotes and parsed as an RFC 8259 JSON string, decodes to the
one-character text `c`. -/
theorem supplementary_roundtrip (c : Nat) (h1 : 0x10000 ≤ c) (h2 : c ≤ 0x10FFFF) :
    ∃ frag, MarshalJSON (runesToString [c]) = .ok (frag, none) ∧ parseQuoted frag = .ok [c] :=
  ⟨specPairEscape c, MarshalJSON_supp c h1 h2, parseQuoted_specPairEscape c h1 h2⟩

theorem supplementary_roundtrip_witness :
    0x10000 ≤ 0x1F600 ∧ 0x1F600 ≤ 0x10FFFF ∧
    ∃ frag, MarshalJSON (runesToString [0x1F600]) = .ok (frag, none)
      ∧ parseQuoted frag = .ok [0x1F600] :=
  ⟨by decide, by decide, supplementary_roundtrip 0x1F600 (by decide) (by decide)⟩

/-- C2 (the code at the failing inputs): for the one-character texts U+0001,
U+0007 and U+000B `Content.MarshalJSON` returns the Go escapes `\x01`, `\a`
and `\v`, and none of them, put between double quotes, is an RFC 8259 JSON
string: each is rejected for an escape JSON does not have. -/
theorem control_characters_not_json :
    (MarshalJSON (runesToString [0x01]) = .ok (asc "\\x01", none)
      ∧ parseQuoted (asc "\\x01") = .error .badEscape) ∧
    (MarshalJSON (runesToString [0x07]) = .ok (asc "\\a", none)
      ∧ parseQuoted (asc "\\a") = .error .badEscape) ∧
    (MarshalJSON (runesToString [0x0B]) = .ok (asc "\\v", none)
      ∧ parseQuoted (asc "\\v") = .error .badEscape) :=
  ⟨⟨rfl, rfl⟩, ⟨rfl, rfl⟩, ⟨rfl, rfl⟩⟩

theorem specPairEscape_no_U (c : Nat) : 0x55 ∉ specPairEscape c := by
  intro hb
  have hm : ∀ n : Nat, n % 16 < 16 := fun n => Nat.mod_lt _ (by norm_num)
  simp only [specPairEscape, specHex4, List.cons_append, List.nil_append, List.mem_cons,
    List.mem_singleton, List.not_mem_nil, or_false] at hb
  rcases hb with h | h | h | h | h | h | h | h | h | h | h | h <;>
    first
    | exact specHexDigit_ne _ (hm _) h.symm
    | exact absurd h (by decide)

/-- C3: for every scalar `c` in U+10000..U+10FFFF, `Content.MarshalJSON` of
the one-character text `c` returns exactly backslash, `u`, the four lowercase
hex digits of `0xD800 + (c - 0x10000) / 1024`, backslash, `u`, the four
lowercase hex digits of `0xDC00 + (c - 0x10000) mod 1024`; the output has no
letter `U`; and for U+1F600 the output is `\ud83d\ude00`. -/
theorem supplementary_surrogate_pair (c : Nat) (h1 : 0x10000 ≤ c) (h2 : c ≤ 0x10FFFF) :
    MarshalJSON (runesToString [c])
        = .ok ([0x5C, 0x75] ++ specHex4 (0xD800 + (c - 0x10000) / 1024)
            ++ [0x5C, 0x75] ++ specHex4 (0xDC00 + (c - 0x10000) % 1024), none)
      ∧ 0x55 ∉ [0x5C, 0x75] ++ specHex4 (0xD800 + (c - 0x10000) / 1024)
            ++ [0x5C, 0x75] ++ specHex4 (0xDC00 + (c - 0x10000) % 1024)
      ∧ MarshalJSON (runesToString [0x1F600]) = .ok (asc "\\ud83d\\ude00", none) :=
  ⟨MarshalJSON_supp c h1 h2, specPairEscape_no_U c, rfl⟩

theorem supplementary_surrogate_pair_witness :
    0x10000 ≤ 0x1F603 ∧ 0x1F603 ≤ 0x10FFFF ∧
    MarshalJSON (runesToString [0x1F603]) = .ok (asc "\\ud83d\\ude03", none) :=
  ⟨by decide, by decide, (supplementary_surrogate_pair 0x1F603 (by decide) (by decide)).1⟩

/-- C4: for every well-formed text `s`, the split of `s` into maximal runs of
scalars below U+10000 and single scalars at or above U+10000 exists, and for
every such split the output of `Content.MarshalJSON` is the concatenation, in
order, of one piece per segment: `strconv.QuoteToASCII` of the run without its
first and last byte for a run, the two-escape surrogate pair for a
supplementary scalar.  For "A😀B" the output is `A\ud83d\ude00B`, for
"Hello 😀!" it is `Hello \ud83d\ude00!`. -/
theorem output_is_concatenation_of_segment_pieces (s : List Nat) (hs : IsText s) :
    isSegmentation s (segments s) = true
      ∧ (∀ segs, isSegmentation s segs = true →
          MarshalJSON (runesToString s) = .ok (segs.flatMap segmentPiece, none))
      ∧ MarshalJSON (runesToString [0x41, 0x1F600, 0x42]) = .ok (asc "A\\ud83d\\ude00B", none)
      ∧ MarshalJSON (runesToString (asc "Hello " ++ [0x1F600] ++ asc "!"))
          = .ok (asc "Hello \\ud83d\\ude00!", none) := by
  refine ⟨segments_isSegmentation s, ?_, rfl, rfl⟩
  intro segs hsegs
  rw [segmentation_unique segs s hsegs, MarshalJSON_text s hs,
    writesFrom_pieces s (isText_le s hs) [] (by simp)]
  rfl

theorem output_is_concatenation_of_segment_pieces_witness :
    IsText [0x41, 0x1F600, 0x42] ∧
    isSegmentation [0x41, 0x1F600, 0x42] [.bmpRun [0x41], .supp 0x1F600, .bmpRun [0x42]] = true ∧
    MarshalJSON (runesToString [0x41, 0x1F600, 0x42])
      = .ok (segmentPiece (.bmpRun [0x41]) ++ segmentPiece (.supp 0x1F600)
          ++ segmentPiece (.bmpRun [0x42]), none) :=
  ⟨by decide, by decide,
    (output_is_concatenation_of_segment_pieces [0x41, 0x1F600, 0x42] (by decide)).2.1
      [.bmpRun [0x41], .supp 0x1F600, .bmpRun [0x42]] (by decide)⟩

theorem writesFrom_bmp (s : List Nat) (hb : ∀ c ∈ s, c < 0x10000) :
    ∀ pending, writesFrom pending s = flushWrites (pending ++ s) := by
  induction s with
  | nil => intro pending; simp [writesFrom]
  | cons r rest ih =>
    intro pending
    have hr : r < 0x10000 := hb r (List.mem_cons_self _ _)
    rw [writesFrom, if_neg (by omega), ih (fun x hx => hb x (List.mem_cons_of_mem _ hx))]
    simp

/-- C5: for every well-formed text `s` whose scalars are all below U+10000,
`Content.MarshalJSON` returns exactly `strconv.QuoteToASCII(s)` without its
leading and trailing double quote, and none of its writes is a surrogate-pair
escape. -/
theorem bmp_text_is_quoter_interior (s : List Nat) (hs : IsText s)
    (hb : ∀ c ∈ s, c < 0x10000) :
    MarshalJSON (runesToString s) = .ok (stripEnds (QuoteToASCII (runesToString s)), none)
      ∧ ∃ ws, marshalWrites (runesToString s) = .ok ws ∧ ∀ w ∈ ws, w.site ≠ .pair := by
  have hw : writesFrom [] s = flushWrites s := writesFrom_bmp s hb []
  constructor
  · rw [MarshalJSON_text s hs, hw]
    cases s with
    | nil => rfl
    | cons a t => simp [flushWrites, builderString, quotedWrite]
  · refine ⟨flushWrites s, ?_, ?_⟩
    · rw [marshalWrites_eq, stringToRunes_runesToString s (isText_valid s hs), hw]
    · intro w hw1
      unfold flushWrites at hw1
      split_ifs at hw1
      · simp at hw1
      · simp only [List.mem_singleton] at hw1
        subst hw1
        simp [quotedWrite]

theorem bmp_text_is_quoter_interior_witness :
    IsText (asc "hi\n") ∧ (∀ c ∈ asc "hi\n", c < 0x10000) ∧
    MarshalJSON (runesToString (asc "hi\n"))
      = .ok (stripEnds (QuoteToASCII (runesToString (asc "hi\n"))), none) :=
  ⟨by decide, by decide, (bmp_text_is_quoter_interior (asc "hi\n") (by decide) (by decide)).1⟩

theorem EncodeRune_range (r : Nat) :
    (0x1000 ≤ (EncodeRune r).1 ∧ (EncodeRune r).1 < 0x10000)
      ∧ (0x1000 ≤ (EncodeRune r).2 ∧ (EncodeRune r).2 < 0x10000) := by
  unfold EncodeRune
  split_ifs
  · simp only [RuneError]
    omega
  · simp only []
    omega

theorem specHex4_digits (u : Nat) : ∀ d ∈ specHex4 u, (hexVal d).isSome = true := by
  have hm : ∀ n : Nat, n % 16 < 16 := fun n => Nat.mod_lt _ (by norm_num)
  intro d hd
  simp only [specHex4, List.mem_cons, List.mem_singleton, List.not_mem_nil, or_false] at hd
  rcases hd with h | h | h | h <;> rw [h, hexVal_specHexDigit _ (hm _)] <;> rfl

theorem pairWrite_shape (r : Nat) :
    (pairWrite r).text
      = [0x5C, 0x75] ++ specHex4 (EncodeRune r).1 ++ [0x5C, 0x75] ++ specHex4 (EncodeRune r).2 := by
  obtain ⟨⟨a1, a2⟩, b1, b2⟩ := EncodeRune_range r
  simp only [pairWrite, sprintfPair]
  rw [fmtHex_four _ a1 a2, fmtHex_four _ b1 b2]

theorem writesFrom_pairs (s : List Nat) :
    ∀ pending, (∀ w ∈ writesFrom pending s, w.site = .pair → ∃ r, r ≥ 0x10000 ∧ w = pairWrite r)
      ∧ ((writesFrom pending s).filter (fun w => decide (w.site = .pair))).length
          = (s.filter (fun r => decide (r ≥ 0x10000))).length := by
  induction s with
  | nil =>
    intro pending
    simp only [writesFrom, flushWrites]
    split_ifs <;> simp [quotedWrite]
  | cons r rest ih =>
    intro pending
    rw [writesFrom]
    by_cases h : r ≥ 0x10000
    · rw [if_pos h]
      obtain ⟨ih1, ih2⟩ := ih []
      constructor
      · intro w hw hsite
        rcases List.mem_append.mp hw with h1 | h1
        · unfold flushWrites at h1
          split_ifs at h1
          · simp at h1
          · simp only [List.mem_singleton] at h1
            subst h1
            simp [quotedWrite] at hsite
        · rcases List.mem_cons.mp h1 with h2 | h2
          · exact ⟨r, h, h2⟩
          · exact ih1 w h2 hsite
      · have hf : (flushWrites pending).filter (fun w => decide (w.site = .pair)) = [] := by
          unfold flushWrites
          split_ifs <;> simp [quotedWrite]
        rw [List.filter_append, hf, List.nil_append]
        simp only [List.filter_cons, pairWrite, decide_True, if_true, h, List.length_cons]
        change (List.filter (fun w => decide (w.site = WriteSite.pair))
          (writesFrom [] rest)).length + 1 = _
        rw [ih2]
    · rw [if_neg h]
      obtain ⟨ih1, ih2⟩ := ih (pending ++ [r])
      refine ⟨ih1, ?_⟩
      rw [ih2]
      simp [List.filter_cons, h]

/-- C6: for every input, each escape pair that `Content.MarshalJSON` writes for
a rune at or above U+10000 is backslash, `u`, four hexadecimal digits,
backslash, `u`, four hexadecimal digits (twelve bytes), and there is exactly
one such write for each rune at or above U+10000. -/
theorem pair_escape_has_four_hex_digits (c : GoString) :
    ∃ ws, marshalWrites c = .ok ws
      ∧ (∀ w ∈ ws, w.site = .pair →
          w.text.length = 12 ∧
          ∃ hi lo : List Nat, w.text = [0x5C, 0x75] ++ hi ++ [0x5C, 0x75] ++ lo
            ∧ hi.length = 4 ∧ lo.length = 4
            ∧ (∀ d ∈ hi, (hexVal d).isSome = true) ∧ (∀ d ∈ lo, (hexVal d).isSome = true))
      ∧ (ws.filter (fun w => decide (w.site = .pair))).length
          = ((stringToRunes c).filter (fun r => decide (r ≥ 0x10000))).length := by
  refine ⟨_, marshalWrites_eq c, ?_, (writesFrom_pairs _ []).2⟩
  intro w hw hsite
  obtain ⟨r, hr, hwr⟩ := (writesFrom_pairs _ []).1 w hw hsite
  subst hwr
  rw [pairWrite_shape r]
  exact ⟨rfl, _, _, rfl, rfl, rfl, specHex4_digits _, specHex4_digits _⟩

/-- C7: `Content.MarshalJSON` returns normally with a nil error on every input
string, well-formed or not: no slice expression it evaluates is out of bounds.
The result of the quoter always has at least two bytes.  The empty string and
an encoded lone surrogate half are handled. -/
theorem marshal_never_fails (c : GoString) :
    (∃ out, MarshalJSON c = .ok (out, none))
      ∧ (∀ t : GoString, 2 ≤ (QuoteToASCII t).length)
      ∧ MarshalJSON [] = .ok ([], none)
      ∧ MarshalJSON [0xED, 0xA0, 0x80] = .ok (asc "\\ufffd\\ufffd\\ufffd", none) :=
  ⟨⟨_, MarshalJSON_eq c⟩, QuoteToASCII_length, rfl, rfl⟩

theorem CreateChatCompletion_stream {Ctx HttpReq E : Type} (c : Client Ctx HttpReq E)
    (log : List (TransportEvent HttpReq)) (ctx : Ctx) (request : ChatCompletionRequest)
    (h : request.Stream = true) :
    CreateChatCompletion c log ctx request
      = ((zeroResponse, some .ErrChatCompletionStreamNotSupported), log) := by
  simp [CreateChatCompletion, h]

theorem CreateChatCompletion_model {Ctx HttpReq E : Type} (c : Client Ctx HttpReq E)
    (log : List (TransportEvent HttpReq)) (ctx : Ctx) (request : ChatCompletionRequest)
    (hs : request.Stream = false)
    (hm : c.checkEndpointSupportsModel (asc "/chat/completions") request.Model = false) :
    CreateChatCompletion c log ctx request
      = ((zeroResponse, some .ErrChatCompletionInvalidModel), log) := by
  simp [CreateChatCompletion, hs, hm]

theorem CreateChatCompletion_build_error {Ctx HttpReq E : Type} (c : Client Ctx HttpReq E)
    (log : List (TransportEvent HttpReq)) (ctx : Ctx) (request : ChatCompletionRequest)
    (hs : request.Stream = false)
    (hm : c.checkEndpointSupportsModel (asc "/chat/completions") request.Model = true)
    (e : E)
    (hb : c.build log ctx MethodPost (c.fullURL (asc "/chat/completions") request.Model) request
      = .error e) :
    CreateChatCompletion c log ctx request
      = ((zeroResponse, some (.collaborator e)),
          log ++ [.built MethodPost (c.fullURL (asc "/chat/completions") request.Model)
            request]) := by
  simp [CreateChatCompletion, hs, hm, hb]

theorem CreateChatCompletion_sent {Ctx HttpReq E : Type} (c : Client Ctx HttpReq E)
    (log : List (TransportEvent HttpReq)) (ctx : Ctx) (request : ChatCompletionRequest)
    (hs : request.Stream = false)
    (hm : c.checkEndpointSupportsModel (asc "/chat/completions") request.Model = true)
    (req : HttpReq)
    (hb : c.build log ctx MethodPost (c.fullURL (asc "/chat/completions") request.Model) request
      = .ok req) :
    CreateChatCompletion c log ctx request
      = (((c.sendRequest (log ++ [.built MethodPost
              (c.fullURL (asc "/chat/completions") request.Model) request]) req zeroResponse).1,
          (c.sendRequest (log ++ [.built MethodPost
              (c.fullURL (asc "/chat/completions") request.Model) request]) req
                zeroResponse).2.map .collaborator),
          log ++ [.built MethodPost (c.fullURL (asc "/chat/completions") request.Model) request]
            ++ [.sent req]) := by
  simp [CreateChatCompletion, hs, hm, hb]

/-- C8: for every request with `Stream = true`, whatever its model and other
fields, `CreateChatCompletion` returns `ErrChatCompletionStreamNotSupported`
with the zero-valued response; the stream check comes before the model
check. -/
theorem stream_request_is_rejected {Ctx HttpReq E : Type} (c : Client Ctx HttpReq E)
    (log : List (TransportEvent HttpReq)) (ctx : Ctx) (request : ChatCompletionRequest)
    (h : request.Stream = true) :
    (CreateChatCompletion c log ctx request).1
      = (zeroResponse, some .ErrChatCompletionStreamNotSupported) := by
  rw [CreateChatCompletion_stream c log ctx request h]

theorem stream_request_is_rejected_witness :
    (exampleRequest (asc "no-such-model") true).Stream = true ∧
    exampleClient.checkEndpointSupportsModel (asc "/chat/completions")
      (exampleRequest (asc "no-such-model") true).Model = false ∧
    (CreateChatCompletion exampleClient [] () (exampleRequest (asc "no-such-model") true)).1
      = (zeroResponse, some .ErrChatCompletionStreamNotSupported) :=
  ⟨rfl, by decide,
    stream_request_is_rejected exampleClient [] () (exampleRequest (asc "no-such-model") true) rfl⟩

/-- C9: for every request with `Stream = false` whose model
`checkEndpointSupportsModel("/chat/completions", model)` rejects,
`CreateChatCompletion` returns `ErrChatCompletionInvalidModel` with the
zero-valued response; and the function itself returns that error in no other
case. -/
theorem unsupported_model_is_rejected {Ctx HttpReq E : Type} (c : Client Ctx HttpReq E)
    (log : List (TransportEvent HttpReq)) (ctx : Ctx) (request : ChatCompletionRequest) :
    (request.Stream = false →
      c.checkEndpointSupportsModel (asc "/chat/completions") request.Model = false →
      (CreateChatCompletion c log ctx request).1
        = (zeroResponse, some .ErrChatCompletionInvalidModel))
    ∧ ((CreateChatCompletion c log ctx request).1.2 = some .ErrChatCompletionInvalidModel ↔
        (request.Stream = false ∧
          c.checkEndpointSupportsModel (asc "/chat/completions") request.Model = false)) := by
  refine ⟨fun hs hm => by rw [CreateChatCompletion_model c log ctx request hs hm], ?_⟩
  cases hs : request.Stream
  · cases hm : c.checkEndpointSupportsModel (asc "/chat/completions") request.Model
    · rw [CreateChatCompletion_model c log ctx request hs hm]
      simp
    · cases hb : c.build log ctx MethodPost (c.fullURL (asc "/chat/completions") request.Model)
        request with
      | error e =>
        rw [CreateChatCompletion_build_error c log ctx request hs hm e hb]
        simp
      | ok req =>
        rw [CreateChatCompletion_sent c log ctx request hs hm req hb]
        cases (c.sendRequest (log ++ [TransportEvent.built MethodPost
          (c.fullURL (asc "/chat/completions") request.Model) request]) req zeroResponse).2 <;>
          simp
  · rw [CreateChatCompletion_stream c log ctx request hs]
    simp

theorem unsupported_model_is_rejected_witness :
    (exampleRequest (asc "no-such-model") false).Stream = false ∧
    exampleClient.checkEndpointSupportsModel (asc "/chat/completions")
      (exampleRequest (asc "no-such-model") false).Model = false ∧
    (CreateChatCompletion exampleClient [] () (exampleRequest (asc "no-such-model") false)).1
      = (zeroResponse, some .ErrChatCompletionInvalidModel) :=
  ⟨rfl, by decide,
    (unsupported_model_is_rejected exampleClient [] ()
      (exampleRequest (asc "no-such-model") false)).1 rfl (by decide)⟩

/-- C10: whenever `CreateChatCompletion` fails a precondition (`Stream = true`,
or the model is rejected by `checkEndpointSupportsModel`), the transport record
of built and sent requests after the call is the record before it: neither the
request builder nor `sendRequest` is invoked. -/
theorem precondition_failure_leaves_transport_alone {Ctx HttpReq E : Type}
    (c : Client Ctx HttpReq E) (log : List (TransportEvent HttpReq)) (ctx : Ctx)
    (request : ChatCompletionRequest)
    (h : request.Stream = true ∨
      c.checkEndpointSupportsModel (asc "/chat/completions") request.Model = false) :
    (CreateChatCompletion c log ctx request).2 = log := by
  cases hs : request.Stream
  · rcases h with h | h
    · rw [hs] at h
      cases h
    · rw [CreateChatCompletion_model c log ctx request hs h]
  · rw [CreateChatCompletion_stream c log ctx request hs]

theorem precondition_failure_leaves_transport_alone_witness :
    ((exampleRequest (asc "no-such-model") false).Stream = true ∨
      exampleClient.checkEndpointSupportsModel (asc "/chat/completions")
        (exampleRequest (asc "no-such-model") false).Model = false) ∧
    (CreateChatCompletion exampleClient [.sent (exampleRequest [] false)] ()
        (exampleRequest (asc "no-such-model") false)).2
      = [.sent (exampleRequest [] false)] :=
  ⟨Or.inr (by decide),
    precondition_failure_leaves_transport_alone exampleClient [.sent (exampleRequest [] false)] ()
      (exampleRequest (asc "no-such-model") false) (Or.inr (by decide))⟩

/-! ## The output rune by rune -/

theorem first_cases (b : Nat) :
    (first b = 0xF0 ∧ b < 0x80) ∨ first b = 0xF1
    ∨ (first b = 0x02 ∧ 0xC2 ≤ b ∧ b < 0xE0)
    ∨ (first b = 0x13 ∧ b = 0xE0)
    ∨ (first b = 0x03 ∧ 0xE1 ≤ b ∧ b < 0xF0 ∧ b ≠ 0xED)
    ∨ (first b = 0x23 ∧ b = 0xED)
    ∨ (first b = 0x34 ∧ b = 0xF0)
    ∨ (first b = 0x04 ∧ 0xF1 ≤ b ∧ b < 0xF4)
    ∨ (first b = 0x44 ∧ b = 0xF4) := by
  simp only [first]
  split_ifs <;> simp <;> omega

theorem decode_valid (s : GoString) : ValidRune (DecodeRuneInString s).1 = true := by
  rw [validRune_iff]
  unfold DecodeRuneInString
  simp only []
  by_cases hn : s.length < 1
  · rw [if_pos hn]; simp only [RuneError]; omega
  rw [if_neg hn]
  generalize s.getD 0 0 = s0
  generalize s.getD 1 0 = s1
  generalize s.getD 2 0 = s2
  generalize s.getD 3 0 = s3
  generalize s.length = n
  rcases first_cases s0 with ⟨h, h1⟩ | h | ⟨h, h1, h2⟩ | ⟨h, h1⟩ | ⟨h, h1, h2, h3⟩ | ⟨h, h1⟩
    | ⟨h, h1⟩ | ⟨h, h1, h2⟩ | ⟨h, h1⟩
  · simp only [h, RuneError]
    norm_num
    omega
  · simp only [h, RuneError]
    norm_num
  · simp only [h, acceptRanges, RuneError]
    norm_num
    split_ifs <;> simp only [] <;> omega
  · simp only [h, acceptRanges, RuneError]
    norm_num
    split_ifs <;> simp only [] <;> omega
  · simp only [h, acceptRanges, RuneError]
    norm_num
    split_ifs <;> simp only [] <;> omega
  · simp only [h, acceptRanges, RuneError]
    norm_num
    split_ifs <;> simp only [] <;> omega
  · simp only [h, acceptRanges, RuneError]
    norm_num
    split_ifs <;> simp only [] <;> omega
  · simp only [h, acceptRanges, RuneError]
    norm_num
    split_ifs <;> simp only [] <;> omega
  · simp only [h, acceptRanges, RuneError]
    norm_num
    split_ifs <;> simp only [] <;> omega

theorem stringToRunesAux_valid : ∀ (fuel : Nat) (s : GoString),
    ∀ r ∈ stringToRunesAux fuel s, ValidRune r = true := by
  intro fuel
  induction fuel with
  | zero => intro s r hr; simp [stringToRunesAux] at hr
  | succ fuel ih =>
    intro s r hr
    simp only [stringToRunesAux] at hr
    split_ifs at hr
    · simp at hr
    · rcases List.mem_cons.mp hr with h | h
      · rw [h]; exact decode_valid s
      · exact ih _ r h

theorem stringToRunes_valid (s : GoString) : ∀ r ∈ stringToRunes s, ValidRune r = true :=
  stringToRunesAux_valid _ s

theorem quotedWrite_text (run : List Nat) (h : ∀ r ∈ run, ValidRune r = true) :
    (quotedWrite run).text = run.flatMap (appendEscapedRune []) := by
  simp only [quotedWrite, QuoteToASCII_runes run h, stripEnds_quoted]

theorem flushWrites_flat (run : List Nat) (h : ∀ r ∈ run, ValidRune r = true) :
    builderString (flushWrites run) = run.flatMap (appendEscapedRune []) := by
  unfold flushWrites
  cases run with
  | nil => rfl
  | cons a t =>
    simp only [List.isEmpty_cons, Bool.false_eq_true, if_false, builderString_cons,
      quotedWrite_text _ h]
    simp [builderString]

theorem flatMap_bmp (run : List Nat) (h : ∀ r ∈ run, r < 0x10000) :
    run.flatMap (appendEscapedRune []) = run.flatMap scalarBytes := by
  induction run with
  | nil => rfl
  | cons a t ih =>
    have ha : a < 0x10000 := h a (List.mem_cons_self _ _)
    simp only [List.flatMap_cons, ih (fun x hx => h x (List.mem_cons_of_mem _ hx))]
    unfold scalarBytes
    rw [if_neg (by omega)]

theorem writesFrom_flat (s : List Nat) (hs : ∀ r ∈ s, ValidRune r = true) :
    ∀ pending : List Nat, (∀ r ∈ pending, ValidRune r = true) → (∀ r ∈ pending, r < 0x10000) →
      builderString (writesFrom pending s) = (pending ++ s).flatMap scalarBytes := by
  induction s with
  | nil =>
    intro pending hv hb
    rw [writesFrom, List.append_nil, flushWrites_flat pending hv, flatMap_bmp pending hb]
  | cons r rest ih =>
    intro pending hv hb
    have hrest : ∀ x ∈ rest, ValidRune x = true := fun x hx => hs x (List.mem_cons_of_mem _ hx)
    rw [writesFrom]
    by_cases h : r ≥ 0x10000
    · rw [if_pos h, builderString_append, builderString_cons, flushWrites_flat pending hv,
        flatMap_bmp pending hb, ih hrest [] (by simp) (by simp)]
      simp only [List.flatMap_append, List.flatMap_cons, List.nil_append, pairWrite, scalarBytes,
        if_pos h]
    · rw [if_neg h, ih hrest (pending ++ [r])]
      · simp
      · intro x hx
        rcases List.mem_append.mp hx with h1 | h1
        · exact hv x h1
        · simp only [List.mem_singleton] at h1
          rw [h1]
          exact hs r (List.mem_cons_self _ _)
      · intro x hx
        rcases List.mem_append.mp hx with h1 | h1
        · exact hb x h1
        · simp only [List.mem_singleton] at h1
          omega

theorem MarshalJSON_flat (c : GoString) :
    MarshalJSON c = .ok ((stringToRunes c).flatMap scalarBytes, none) := by
  rw [MarshalJSON_eq, writesFrom_flat _ (stringToRunes_valid c) [] (by simp) (by simp)]
  rfl

theorem MarshalJSON_text_flat (s : List Nat) (hs : IsText s) :
    MarshalJSON (runesToString s) = .ok (s.flatMap scalarBytes, none) := by
  rw [MarshalJSON_flat, stringToRunes_runesToString s (isText_valid s hs)]

theorem isPrint_ascii (r : Nat) (h : r < 0x80) : IsPrint r = true ↔ (0x20 ≤ r ∧ r < 0x7F) := by
  simp only [IsPrint, Bool.decide_or, Bool.decide_and, Bool.or_eq_true, Bool.and_eq_true,
    decide_eq_true_eq]
  omega

theorem scalarBytes_cases (r : Nat) (hv : ValidRune r = true) :
    ((r = 0x22 ∨ r = 0x5C) ∧ scalarBytes r = [0x5C, r])
    ∨ (0x20 ≤ r ∧ r < 0x7F ∧ r ≠ 0x22 ∧ r ≠ 0x5C ∧ scalarBytes r = [r])
    ∨ (r = 0x07 ∧ scalarBytes r = [0x5C, 0x61])
    ∨ (r = 0x08 ∧ scalarBytes r = [0x5C, 0x62])
    ∨ (r = 0x0C ∧ scalarBytes r = [0x5C, 0x66])
    ∨ (r = 0x0A ∧ scalarBytes r = [0x5C, 0x6E])
    ∨ (r = 0x0D ∧ scalarBytes r = [0x5C, 0x72])
    ∨ (r = 0x09 ∧ scalarBytes r = [0x5C, 0x74])
    ∨ (r = 0x0B ∧ scalarBytes r = [0x5C, 0x76])
    ∨ ((r < 0x07 ∨ (0x0D < r ∧ r < 0x20) ∨ r = 0x7F)
        ∧ scalarBytes r = [0x5C, 0x78, specHexDigit (r / 16), specHexDigit (r % 16)])
    ∨ (0x80 ≤ r ∧ r < 0x10000
        ∧ scalarBytes r = [0x5C, 0x75] ++ specHex4 r)
    ∨ (0x10000 ≤ r ∧ r ≤ 0x10FFFF ∧ scalarBytes r = specPairEscape r) := by
  have hv0 := hv
  rw [validRune_iff] at hv
  by_cases hs : r ≥ 0x10000
  · right; right; right; right; right; right; right; right; right; right; right
    refine ⟨hs, by omega, ?_⟩
    have := pairWrite_text r hs (by omega)
    simp only [pairWrite] at this
    rw [scalarBytes, if_pos hs, this]
  have hsb : scalarBytes r = appendEscapedRune [] r := by rw [scalarBytes, if_neg hs]
  rw [hsb]
  unfold appendEscapedRune
  by_cases h1 : r = 0x22 ∨ r = 0x5C
  · left; exact ⟨h1, by rw [if_pos h1]; rfl⟩
  rw [if_neg h1]
  by_cases h2 : r < 0x80 ∧ IsPrint r = true
  · right; left
    have := (isPrint_ascii r h2.1).mp h2.2
    refine ⟨this.1, this.2, by omega, by omega, by rw [if_pos h2]; rfl⟩
  rw [if_neg h2]
  have h2' : ¬ (0x20 ≤ r ∧ r < 0x7F) := by
    intro h
    exact h2 ⟨by omega, (isPrint_ascii r (by omega)).mpr h⟩
  by_cases h3 : r = 0x07
  · right; right; left; exact ⟨h3, by rw [if_pos h3]; rfl⟩
  rw [if_neg h3]
  by_cases h4 : r = 0x08
  · right; right; right; left; exact ⟨h4, by rw [if_pos h4]; rfl⟩
  rw [if_neg h4]
  by_cases h5 : r = 0x0C
  · right; right; right; right; left; exact ⟨h5, by rw [if_pos h5]; rfl⟩
  rw [if_neg h5]
  by_cases h6 : r = 0x0A
  · right; right; right; right; right; left; exact ⟨h6, by rw [if_pos h6]; rfl⟩
  rw [if_neg h6]
  by_cases h7 : r = 0x0D
  · right; right; right; right; right; right; left; exact ⟨h7, by rw [if_pos h7]; rfl⟩
  rw [if_neg h7]
  by_cases h8 : r = 0x09
  · right; right; right; right; right; right; right; left; exact ⟨h8, by rw [if_pos h8]; rfl⟩
  rw [if_neg h8]
  by_cases h9 : r = 0x0B
  · right; right; right; right; right; right; right; right; left
    exact ⟨h9, by rw [if_pos h9]; rfl⟩
  rw [if_neg h9]
  by_cases h10 : r < 0x20 ∨ r = 0x7F
  · right; right; right; right; right; right; right; right; right; left
    refine ⟨by omega, ?_⟩
    rw [if_pos h10]
    have e1 : r % 256 / 16 = r / 16 := by omega
    have e2 : r % 256 % 16 = r % 16 := by omega
    rw [e1, e2, lowerhex_eq_spec _ (by omega), lowerhex_eq_spec _ (by omega)]
    rfl
  rw [if_neg h10]
  right; right; right; right; right; right; right; right; right; right; left
  refine ⟨by omega, by omega, ?_⟩
  simp only [hv0, if_true, not_true_eq_false, false_or]
  rw [if_pos (by omega)]
  have hm : ∀ n : Nat, n % 16 < 16 := fun n => Nat.mod_lt _ (by norm_num)
  rw [lowerhex_eq_spec _ (hm _), lowerhex_eq_spec _ (hm _), lowerhex_eq_spec _ (hm _),
    lowerhex_eq_spec _ (hm _)]
  rfl

theorem specHexDigit_printable (d : Nat) (h : d < 16) :
    0x20 ≤ specHexDigit d ∧ specHexDigit d ≤ 0x7E := by
  interval_cases d <;> decide

theorem specHex4_printable (u : Nat) : ∀ b ∈ specHex4 u, 0x20 ≤ b ∧ b ≤ 0x7E := by
  have hm : ∀ n : Nat, n % 16 < 16 := fun n => Nat.mod_lt _ (by norm_num)
  intro b hb
  simp only [specHex4, List.mem_cons, List.mem_singleton, List.not_mem_nil, or_false] at hb
  rcases hb with h | h | h | h <;> rw [h] <;> exact specHexDigit_printable _ (hm _)

theorem scalarBytes_printable (r : Nat) (hv : ValidRune r = true) :
    ∀ b ∈ scalarBytes r, 0x20 ≤ b ∧ b ≤ 0x7E := by
  intro b hb
  rcases scalarBytes_cases r hv with ⟨h, e⟩ | ⟨h1, h2, _, _, e⟩ | ⟨_, e⟩ | ⟨_, e⟩ | ⟨_, e⟩
    | ⟨_, e⟩ | ⟨_, e⟩ | ⟨_, e⟩ | ⟨_, e⟩ | ⟨h, e⟩ | ⟨_, _, e⟩ | ⟨_, _, e⟩
  · rw [e] at hb
    simp only [List.mem_cons, List.mem_singleton, List.not_mem_nil, or_false] at hb
    omega
  · rw [e] at hb
    simp only [List.mem_singleton] at hb
    omega
  · rw [e] at hb; simp only [List.mem_cons, List.mem_singleton, List.not_mem_nil, or_false] at hb
    omega
  · rw [e] at hb; simp only [List.mem_cons, List.mem_singleton, List.not_mem_nil, or_false] at hb
    omega
  · rw [e] at hb; simp only [List.mem_cons, List.mem_singleton, List.not_mem_nil, or_false] at hb
    omega
  · rw [e] at hb; simp only [List.mem_cons, List.mem_singleton, List.not_mem_nil, or_false] at hb
    omega
  · rw [e] at hb; simp only [List.mem_cons, List.mem_singleton, List.not_mem_nil, or_false] at hb
    omega
  · rw [e] at hb; simp only [List.mem_cons, List.mem_singleton, List.not_mem_nil, or_false] at hb
    omega
  · rw [e] at hb; simp only [List.mem_cons, List.mem_singleton, List.not_mem_nil, or_false] at hb
    omega
  · rw [e] at hb
    simp only [List.mem_cons, List.mem_singleton, List.not_mem_nil, or_false] at hb
    have a1 := specHexDigit_printable (r / 16) (by omega)
    have a2 := specHexDigit_printable (r % 16) (by omega)
    rcases hb with h0 | h0 | h0 | h0
    · omega
    · omega
    · rw [h0]; exact a1
    · rw [h0]; exact a2
  · rw [e] at hb
    rcases List.mem_append.mp hb with h0 | h0
    · simp only [List.mem_cons, List.mem_singleton, List.not_mem_nil, or_false] at h0
      omega
    · exact specHex4_printable _ b h0
  · rw [e] at hb
    simp only [specPairEscape, List.mem_append] at hb
    rcases hb with ((h0 | h0) | h0) | h0
    · simp only [List.mem_cons, List.mem_singleton, List.not_mem_nil, or_false] at h0
      omega
    · exact specHex4_printable _ b h0
    · simp only [List.mem_cons, List.mem_singleton, List.not_mem_nil, or_false] at h0
      omega
    · exact specHex4_printable _ b h0

theorem scalarBytes_ne_nil (r : Nat) (hv : ValidRune r = true) : scalarBytes r ≠ [] := by
  rcases scalarBytes_cases r hv with ⟨_, e⟩ | ⟨_, _, _, _, e⟩ | ⟨_, e⟩ | ⟨_, e⟩ | ⟨_, e⟩
    | ⟨_, e⟩ | ⟨_, e⟩ | ⟨_, e⟩ | ⟨_, e⟩ | ⟨_, e⟩ | ⟨_, _, e⟩ | ⟨_, _, e⟩ <;>
    rw [e] <;> simp [specPairEscape]

theorem stringToRunes_eq_nil (c : GoString) : stringToRunes c = [] ↔ c = [] := by
  cases c with
  | nil => simp [stringToRunes, stringToRunesAux]
  | cons b t => simp [stringToRunes, stringToRunesAux]

theorem flatMap_scalarBytes_eq_nil (rs : List Nat) (h : ∀ r ∈ rs, ValidRune r = true) :
    rs.flatMap scalarBytes = [] ↔ rs = [] := by
  cases rs with
  | nil => simp
  | cons r t =>
    simp only [List.flatMap_cons, List.append_eq_nil, reduceCtorEq, iff_false, not_and]
    intro h0
    exact absurd h0 (scalarBytes_ne_nil r (h r (List.mem_cons_self _ _)))

/-! ## The claims about errors and the transport -/

/-- C11 (as amended): for every request that passes both preconditions, if the
request builder fails with error `e` then `CreateChatCompletion` returns
exactly `e` with the zero-valued response and `sendRequest` is not invoked; if
the builder succeeds and `sendRequest` fails with error `e`, it returns exactly
`e` together with the value `sendRequest` left in the response, which is the
zero value when `sendRequest` did not write to it. -/
theorem collaborator_error_is_returned_unchanged {Ctx HttpReq E : Type}
    (c : Client Ctx HttpReq E) (log : List (TransportEvent HttpReq)) (ctx : Ctx)
    (request : ChatCompletionRequest) (hs : request.Stream = false)
    (hm : c.checkEndpointSupportsModel (asc "/chat/completions") request.Model = true) :
    (∀ e, c.build log ctx MethodPost (c.fullURL (asc "/chat/completions") request.Model) request
          = .error e →
        CreateChatCompletion c log ctx request
          = ((zeroResponse, some (.collaborator e)),
              log ++ [.built MethodPost (c.fullURL (asc "/chat/completions") request.Model)
                request]))
    ∧ (∀ req resp e,
        c.build log ctx MethodPost (c.fullURL (asc "/chat/completions") request.Model) request
          = .ok req →
        c.sendRequest (log ++ [.built MethodPost
            (c.fullURL (asc "/chat/completions") request.Model) request]) req zeroResponse
          = (resp, some e) →
        (CreateChatCompletion c log ctx request).1 = (resp, some (.collaborator e))) := by
  refine ⟨fun e hb => CreateChatCompletion_build_error c log ctx request hs hm e hb, ?_⟩
  intro req resp e hb hsend
  rw [CreateChatCompletion_sent c log ctx request hs hm req hb, hsend]
  rfl

theorem collaborator_error_is_returned_unchanged_witness :
    (exampleRequest (asc "gpt-3.5-turbo") false).Stream = false ∧
    partialDecodeClient.checkEndpointSupportsModel (asc "/chat/completions")
      (exampleRequest (asc "gpt-3.5-turbo") false).Model = true ∧
    (CreateChatCompletion partialDecodeClient [] () (exampleRequest (asc "gpt-3.5-turbo") false)).1
      = ({ zeroResponse with ID := asc "x" }, some (.collaborator (asc "cannot unmarshal"))) :=
  ⟨rfl, by decide,
    (collaborator_error_is_returned_unchanged partialDecodeClient [] ()
      (exampleRequest (asc "gpt-3.5-turbo") false) rfl (by decide)).2
      (exampleRequest (asc "gpt-3.5-turbo") false) { zeroResponse with ID := asc "x" }
      (asc "cannot unmarshal") rfl rfl⟩

/-- C11 (counterexample): the request passes both preconditions, the builder
succeeds and `sendRequest` fails with an error after writing the field `ID` of
the response; `CreateChatCompletion` returns that error with a response whose
`ID` is `x`, which is not the zero-valued response. -/
theorem send_failure_response_not_zero :
    (exampleRequest (asc "gpt-3.5-turbo") false).Stream = false ∧
    partialDecodeClient.checkEndpointSupportsModel (asc "/chat/completions")
      (exampleRequest (asc "gpt-3.5-turbo") false).Model = true ∧
    partialDecodeClient.build [] () MethodPost
        (partialDecodeClient.fullURL (asc "/chat/completions") (asc "gpt-3.5-turbo"))
        (exampleRequest (asc "gpt-3.5-turbo") false)
      = .ok (exampleRequest (asc "gpt-3.5-turbo") false) ∧
    (partialDecodeClient.sendRequest
        [.built MethodPost
          (partialDecodeClient.fullURL (asc "/chat/completions") (asc "gpt-3.5-turbo"))
          (exampleRequest (asc "gpt-3.5-turbo") false)]
        (exampleRequest (asc "gpt-3.5-turbo") false) zeroResponse).2
      = some (asc "cannot unmarshal") ∧
    (CreateChatCompletion partialDecodeClient [] ()
        (exampleRequest (asc "gpt-3.5-turbo") false)).1.2
      = some (.collaborator (asc "cannot unmarshal")) ∧
    (CreateChatCompletion partialDecodeClient [] ()
        (exampleRequest (asc "gpt-3.5-turbo") false)).1.1 ≠ zeroResponse := by
  refine ⟨rfl, by decide, rfl, rfl, rfl, ?_⟩
  decide

/-- C12: for every request with `Stream = false` and a supported model,
`CreateChatCompletion` hands the request builder, once, the method `POST`, the
URL `fullURL("/chat/completions", request.Model)` and the request itself; when
building fails the builder's error is returned and nothing is sent; when it
succeeds the built request is handed to `sendRequest` once, and the response
and error of `sendRequest` are what the call returns. -/
theorem supported_request_is_built_and_sent_once {Ctx HttpReq E : Type}
    (c : Client Ctx HttpReq E) (log : List (TransportEvent HttpReq)) (ctx : Ctx)
    (request : ChatCompletionRequest) (hs : request.Stream = false)
    (hm : c.checkEndpointSupportsModel (asc "/chat/completions") request.Model = true) :
    MethodPost = asc "POST"
    ∧ (∀ e, c.build log ctx MethodPost (c.fullURL (asc "/chat/completions") request.Model) request
          = .error e →
        (CreateChatCompletion c log ctx request).2
          = log ++ [.built MethodPost (c.fullURL (asc "/chat/completions") request.Model)
              request])
    ∧ (∀ req,
        c.build log ctx MethodPost (c.fullURL (asc "/chat/completions") request.Model) request
          = .ok req →
        (CreateChatCompletion c log ctx request).2
            = log ++ [.built MethodPost (c.fullURL (asc "/chat/completions") request.Model)
                request, .sent req]
          ∧ (CreateChatCompletion c log ctx request).1.1
            = (c.sendRequest (log ++ [.built MethodPost
                (c.fullURL (asc "/chat/completions") request.Model) request]) req
                  zeroResponse).1
          ∧ (CreateChatCompletion c log ctx request).1.2
            = (c.sendRequest (log ++ [.built MethodPost
                (c.fullURL (asc "/chat/completions") request.Model) request]) req
                  zeroResponse).2.map .collaborator) := by
  refine ⟨rfl, ?_, ?_⟩
  · intro e hb
    rw [CreateChatCompletion_build_error c log ctx request hs hm e hb]
  · intro req hb
    rw [CreateChatCompletion_sent c log ctx request hs hm req hb]
    simp

theorem supported_request_is_built_and_sent_once_witness :
    (exampleRequest (asc "gpt-3.5-turbo") false).Stream = false ∧
    exampleClient.checkEndpointSupportsModel (asc "/chat/completions")
      (exampleRequest (asc "gpt-3.5-turbo") false).Model = true ∧
    (CreateChatCompletion exampleClient [] () (exampleRequest (asc "gpt-3.5-turbo") false)).2
      = [.built (asc "POST") (asc "https://api.openai.com/v1/chat/completions")
          (exampleRequest (asc "gpt-3.5-turbo") false),
         .sent (exampleRequest (asc "gpt-3.5-turbo") false)] :=
  ⟨rfl, by decide,
    ((supported_request_is_built_and_sent_once exampleClient [] ()
      (exampleRequest (asc "gpt-3.5-turbo") false) rfl (by decide)).2.2
      (exampleRequest (asc "gpt-3.5-turbo") false) rfl).1⟩

/-! ## Further claims about `Content.MarshalJSON` -/

/-- C15: `Content.MarshalJSON` of the empty text returns no bytes at all, and
it returns no bytes only for the empty input. -/
theorem empty_output_iff_empty_input (c : GoString) :
    MarshalJSON [] = .ok ([], none)
      ∧ (MarshalJSON c = .ok ([], none) ↔ c = []) := by
  refine ⟨rfl, ?_⟩
  rw [MarshalJSON_flat]
  constructor
  · intro h
    have h1 : (stringToRunes c).flatMap scalarBytes = [] := by
      injection h with h
      exact congrArg Prod.fst h
    exact (stringToRunes_eq_nil c).mp
      ((flatMap_scalarBytes_eq_nil _ (stringToRunes_valid c)).mp h1)
  · intro h
    subst h
    rfl

theorem writesFrom_supp (s : List Nat) (h : ∀ c ∈ s, c ≥ 0x10000) :
    writesFrom [] s = s.map pairWrite := by
  induction s with
  | nil => rfl
  | cons r rest ih =>
    have hr : r ≥ 0x10000 := h r (List.mem_cons_self _ _)
    rw [writesFrom, if_pos hr, ih (fun x hx => h x (List.mem_cons_of_mem _ hx))]
    rfl

theorem specPairEscape_length (c : Nat) : (specPairEscape c).length = 12 := rfl

theorem flatMap_pair_length (s : List Nat) : (s.flatMap specPairEscape).length = 12 * s.length := by
  induction s with
  | nil => rfl
  | cons r rest ih =>
    simp only [List.flatMap_cons, List.length_append, ih, specPairEscape_length, List.length_cons]
    omega

theorem builderString_pairs (s : List Nat) (h : ∀ c ∈ s, c ≥ 0x10000) (hs : IsText s) :
    builderString (s.map pairWrite) = s.flatMap specPairEscape := by
  induction s with
  | nil => rfl
  | cons r rest ih =>
    have hr : r ≥ 0x10000 := h r (List.mem_cons_self _ _)
    have hle : r ≤ 0x10FFFF := isText_le _ hs r (List.mem_cons_self _ _)
    rw [List.map_cons, builderString_cons, pairWrite_text r hr hle,
      ih (fun x hx => h x (List.mem_cons_of_mem _ hx))
        (fun x hx => hs x (List.mem_cons_of_mem _ hx))]
    rfl

/-- C16: for every text of scalars at or above U+10000 only,
`Content.MarshalJSON` returns the concatenation, in input order, of the
surrogate-pair escapes of the scalars; every write comes from the surrogate-pair
statement, none from the quoter; the output has twelve bytes per scalar.  For
"😀😃" the output is `\ud83d\ude00\ud83d\ude03`. -/
theorem supplementary_only_output (s : List Nat) (hs : IsText s)
    (hsupp : ∀ c ∈ s, c ≥ 0x10000) :
    MarshalJSON (runesToString s) = .ok (s.flatMap specPairEscape, none)
      ∧ (∃ ws, marshalWrites (runesToString s) = .ok ws ∧ ws.length = s.length
          ∧ ∀ w ∈ ws, w.site = .pair)
      ∧ (s.flatMap specPairEscape).length = 12 * s.length
      ∧ MarshalJSON (runesToString [0x1F600, 0x1F603])
          = .ok (asc "\\ud83d\\ude00\\ud83d\\ude03", none) := by
  have hw := writesFrom_supp s hsupp
  refine ⟨?_, ⟨s.map pairWrite, ?_, by simp, ?_⟩, flatMap_pair_length s, rfl⟩
  · rw [MarshalJSON_text s hs, hw, builderString_pairs s hsupp hs]
  · rw [marshalWrites_eq, stringToRunes_runesToString s (isText_valid s hs), hw]
  · intro w hw1
    obtain ⟨r, _, hr⟩ := List.mem_map.mp hw1
    rw [← hr]
    rfl

theorem supplementary_only_output_witness :
    IsText [0x1F600, 0x1F603] ∧ (∀ c ∈ [0x1F600, 0x1F603], c ≥ 0x10000) ∧
    MarshalJSON (runesToString [0x1F600, 0x1F603])
      = .ok (specPairEscape 0x1F600 ++ specPairEscape 0x1F603, none) :=
  ⟨by decide, by decide,
    (supplementary_only_output [0x1F600, 0x1F603] (by decide) (by decide)).1⟩

theorem isText_append (s t : List Nat) (hs : IsText s) (ht : IsText t) : IsText (s ++ t) := by
  intro c hc
  rcases List.mem_append.mp hc with h | h
  · exact hs c h
  · exact ht c h

/-- C17: `Content.MarshalJSON` distributes over the concatenation of
well-formed texts: the output for `s` followed by `t` is the output for `s`
followed by the output for `t`. -/
theorem output_distributes_over_concatenation (s t : List Nat) (hs : IsText s) (ht : IsText t) :
    ∃ a b, MarshalJSON (runesToString s) = .ok (a, none)
      ∧ MarshalJSON (runesToString t) = .ok (b, none)
      ∧ MarshalJSON (runesToString s ++ runesToString t) = .ok (a ++ b, none)
      ∧ runesToString s ++ runesToString t = runesToString (s ++ t) := by
  refine ⟨s.flatMap scalarBytes, t.flatMap scalarBytes, MarshalJSON_text_flat s hs,
    MarshalJSON_text_flat t ht, ?_, (runesToString_append s t).symm⟩
  rw [← runesToString_append, MarshalJSON_text_flat _ (isText_append s t hs ht),
    List.flatMap_append]

theorem output_distributes_over_concatenation_witness :
    IsText (asc "A") ∧ IsText [0x42, 0x1F600] ∧
    ∃ a b, MarshalJSON (runesToString (asc "A")) = .ok (a, none)
      ∧ MarshalJSON (runesToString [0x42, 0x1F600]) = .ok (b, none)
      ∧ MarshalJSON (runesToString (asc "A") ++ runesToString [0x42, 0x1F600])
          = .ok (a ++ b, none)
      ∧ runesToString (asc "A") ++ runesToString [0x42, 0x1F600]
          = runesToString (asc "A" ++ [0x42, 0x1F600]) :=
  ⟨by decide, by decide,
    output_distributes_over_concatenation (asc "A") [0x42, 0x1F600] (by decide) (by decide)⟩

/-- C19: for every input, every byte of the output of `Content.MarshalJSON`
is a printable ASCII character, U+0020 to U+007E. -/
theorem output_is_printable_ascii (c : GoString) :
    ∃ out, MarshalJSON c = .ok (out, none) ∧ ∀ b ∈ out, 0x20 ≤ b ∧ b ≤ 0x7E := by
  refine ⟨_, MarshalJSON_flat c, ?_⟩
  intro b hb
  obtain ⟨r, hr, hbr⟩ := List.mem_flatMap.mp hb
  exact scalarBytes_printable r (stringToRunes_valid c r hr) b hbr

theorem decodeOne_plain (b : Nat) (rest : List Nat) (h : b ≠ 0x5C) :
    decodeOne (b :: rest) = some (b, rest) := by
  simp only [decodeOne]
  rw [if_pos h]

theorem decodeOne_quote (rest : List Nat) :
    decodeOne (0x5C :: 0x22 :: rest) = some (0x22, rest) := by
  simp [decodeOne]

theorem decodeOne_backslash (rest : List Nat) :
    decodeOne (0x5C :: 0x5C :: rest) = some (0x5C, rest) := by
  simp [decodeOne]

theorem decodeOne_letter (rest : List Nat) :
    decodeOne (0x5C :: 0x61 :: rest) = some (0x07, rest)
      ∧ decodeOne (0x5C :: 0x62 :: rest) = some (0x08, rest)
      ∧ decodeOne (0x5C :: 0x66 :: rest) = some (0x0C, rest)
      ∧ decodeOne (0x5C :: 0x6E :: rest) = some (0x0A, rest)
      ∧ decodeOne (0x5C :: 0x72 :: rest) = some (0x0D, rest)
      ∧ decodeOne (0x5C :: 0x74 :: rest) = some (0x09, rest)
      ∧ decodeOne (0x5C :: 0x76 :: rest) = some (0x0B, rest) := by
  simp [decodeOne]

theorem decodeOne_x (h1 h2 a b : Nat) (rest : List Nat) (e1 : hexVal h1 = some a)
    (e2 : hexVal h2 = some b) :
    decodeOne (0x5C :: 0x78 :: h1 :: h2 :: rest) = some (a * 16 + b, rest) := by
  simp [decodeOne, e1, e2]

theorem decodeOne_u (h1 h2 h3 h4 u : Nat) (rest : List Nat) (e : hex4 h1 h2 h3 h4 = some u)
    (hu : ¬ (0xD800 ≤ u ∧ u ≤ 0xDBFF)) :
    decodeOne (0x5C :: 0x75 :: h1 :: h2 :: h3 :: h4 :: rest) = some (u, rest) := by
  simp only [decodeOne, ne_eq, not_true_eq_false, if_false, if_true, e]
  rw [if_neg hu]

theorem decodeOne_pair (h1 h2 h3 h4 u b1 b2 l1 l2 l3 l4 v : Nat) (rest : List Nat)
    (e : hex4 h1 h2 h3 h4 = some u) (hu : 0xD800 ≤ u ∧ u ≤ 0xDBFF)
    (e' : hex4 l1 l2 l3 l4 = some v) :
    decodeOne (0x5C :: 0x75 :: h1 :: h2 :: h3 :: h4 :: b1 :: b2 :: l1 :: l2 :: l3 :: l4 :: rest)
      = some (0x10000 + (u - 0xD800) * 1024 + (v - 0xDC00), rest) := by
  simp only [decodeOne, ne_eq, not_true_eq_false, if_false, if_true, e, e']
  rw [if_pos hu]

theorem decodeOne_scalarBytes (r : Nat) (hv : ValidRune r = true) (rest : List Nat) :
    decodeOne (scalarBytes r ++ rest) = some (r, rest) := by
  have hv' := (validRune_iff r).mp hv
  rcases scalarBytes_cases r hv with ⟨h, e⟩ | ⟨h1, h2, h3, h4, e⟩ | ⟨h, e⟩ | ⟨h, e⟩ | ⟨h, e⟩
    | ⟨h, e⟩ | ⟨h, e⟩ | ⟨h, e⟩ | ⟨h, e⟩ | ⟨h, e⟩ | ⟨h1, h2, e⟩ | ⟨h1, h2, e⟩
  · rw [e]
    rcases h with h | h
    · rw [h]; exact decodeOne_quote rest
    · rw [h]; exact decodeOne_backslash rest
  · rw [e]
    exact decodeOne_plain r rest h4
  · rw [e, h]; exact (decodeOne_letter rest).1
  · rw [e, h]; exact (decodeOne_letter rest).2.1
  · rw [e, h]; exact (decodeOne_letter rest).2.2.1
  · rw [e, h]; exact (decodeOne_letter rest).2.2.2.1
  · rw [e, h]; exact (decodeOne_letter rest).2.2.2.2.1
  · rw [e, h]; exact (decodeOne_letter rest).2.2.2.2.2.1
  · rw [e, h]; exact (decodeOne_letter rest).2.2.2.2.2.2
  · rw [e]
    have a1 := hexVal_specHexDigit (r / 16) (by omega)
    have a2 := hexVal_specHexDigit (r % 16) (by omega)
    have := decodeOne_x _ _ _ _ rest a1 a2
    have e3 : r / 16 * 16 + r % 16 = r := by omega
    rw [e3] at this
    exact this
  · rw [e]
    exact decodeOne_u _ _ _ _ r rest (hex4_spec r h2) (by omega)
  · rw [e]
    have a := hex4_spec (specHi r) ((specHi_range r h1 h2).2.trans_lt (by norm_num))
    have b := hex4_spec (specLo r) ((specLo_range r).2.trans_lt (by norm_num))
    have := decodeOne_pair _ _ _ _ _ 0x5C 0x75 _ _ _ _ _ rest a (specHi_range r h1 h2) b
    rw [spec_combine r h1] at this
    exact this

theorem flatMap_scalarBytes_injective (s : List Nat) :
    ∀ t : List Nat, (∀ r ∈ s, ValidRune r = true) → (∀ r ∈ t, ValidRune r = true) →
      s.flatMap scalarBytes = t.flatMap scalarBytes → s = t := by
  induction s with
  | nil =>
    intro t _ ht h
    exact ((flatMap_scalarBytes_eq_nil t ht).mp h.symm).symm
  | cons a s ih =>
    intro t hs ht h
    cases t with
    | nil =>
      exact absurd ((flatMap_scalarBytes_eq_nil _ hs).mp h) (by simp)
    | cons b t =>
      simp only [List.flatMap_cons] at h
      have ha := decodeOne_scalarBytes a (hs a (List.mem_cons_self _ _)) (s.flatMap scalarBytes)
      have hb := decodeOne_scalarBytes b (ht b (List.mem_cons_self _ _)) (t.flatMap scalarBytes)
      rw [h, hb] at ha
      simp only [Option.some.injEq, Prod.mk.injEq] at ha
      rw [ha.1, ih t (fun x hx => hs x (List.mem_cons_of_mem _ hx))
        (fun x hx => ht x (List.mem_cons_of_mem _ hx)) ha.2.symm]

/-- C18: `Content.MarshalJSON` is injective on well-formed texts: two
sequences of Unicode scalar values with the same output are equal. -/
theorem output_determines_text (s t : List Nat) (hs : IsText s) (ht : IsText t)
    (h : MarshalJSON (runesToString s) = MarshalJSON (runesToString t)) : s = t := by
  rw [MarshalJSON_text_flat s hs, MarshalJSON_text_flat t ht] at h
  injection h with h
  exact flatMap_scalarBytes_injective s t (isText_valid s hs) (isText_valid t ht)
    (congrArg Prod.fst h)

theorem output_determines_text_witness :
    IsText [0x1F600] ∧ IsText [0x1F600] ∧
    MarshalJSON (runesToString [0x1F600]) = MarshalJSON (runesToString [0x1F600]) ∧
    [0x1F600] = [0x1F600] :=
  ⟨by decide, by decide, rfl,
    output_determines_text [0x1F600] [0x1F600] (by decide) (by decide) rfl⟩

/-! ## The claims about the serialized request -/

theorem floatMember_keys (key : GoString) (f : Float32) (l : List (GoString × JsonValue))
    (h : floatMember key f = .ok l) :
    l.map Prod.fst = if f.isZero then [] else [key] := by
  unfold floatMember at h
  by_cases hz : f.isZero = true
  · simp only [hz, if_true] at h
    injection h with h
    rw [← h, if_pos hz]
    rfl
  · simp only [hz, Bool.false_eq_true, if_false] at h
    by_cases hf : f.isFinite = true
    · simp only [hf, if_true] at h
      injection h with h
      rw [← h, if_neg hz]
      rfl
    · simp only [hf, Bool.false_eq_true, if_false] at h
      cases h

theorem except_bind_ok {ε α β : Type} (x : Except ε α) (f : α → Except ε β) (b : β)
    (h : (x >>= f) = .ok b) : ∃ a, x = .ok a ∧ f a = .ok b := by
  cases x with
  | error e => cases h
  | ok a => exact ⟨a, rfl, h⟩

theorem floatMember_finite (key : GoString) (f : Float32) (h : f.isFinite = true) :
    ∃ l, floatMember key f = .ok l := by
  unfold floatMember
  by_cases hz : f.isZero = true
  · exact ⟨[], by simp only [hz, if_true]; rfl⟩
  · exact ⟨[(key, .float32 f)], by simp only [hz, h, Bool.false_eq_true, if_false, if_true]; rfl⟩

theorem optionalMembers_keys (r : ChatCompletionRequest)
    (optional : List (GoString × JsonValue)) (h : optionalMembers r = .ok optional) :
    [asc "model", asc "messages"] ++ optional.map Prod.fst = expectedKeys r := by
  unfold optionalMembers at h
  obtain ⟨t, ht, h⟩ := except_bind_ok _ _ _ h
  obtain ⟨tp, htp, h⟩ := except_bind_ok _ _ _ h
  obtain ⟨pp, hpp, h⟩ := except_bind_ok _ _ _ h
  obtain ⟨fp, hfp, h⟩ := except_bind_ok _ _ _ h
  injection h with h
  rw [← h]
  have e1 : (if r.MaxTokens = 0 then [] else [(asc "max_tokens", JsonValue.int r.MaxTokens)]).map
      Prod.fst = if r.MaxTokens ≠ 0 then [asc "max_tokens"] else [] := by
    split_ifs <;> simp_all
  have e2 : (if r.N = 0 then [] else [(asc "n", JsonValue.int r.N)]).map Prod.fst
      = if r.N ≠ 0 then [asc "n"] else [] := by
    split_ifs <;> simp_all
  have e3 : (if r.Stream = true then [(asc "stream", JsonValue.bool r.Stream)] else []).map
      Prod.fst = if r.Stream = true then [asc "stream"] else [] := by
    split_ifs <;> simp_all
  have e4 : (if r.Stop.isEmpty = true then [] else [(asc "stop", JsonValue.strings r.Stop)]).map
      Prod.fst = if r.Stop ≠ [] then [asc "stop"] else [] := by
    cases r.Stop <;> simp
  have e5 : (if r.LogitBias.isEmpty = true then []
        else [(asc "logit_bias", JsonValue.intMap r.LogitBias)]).map Prod.fst
      = if r.LogitBias ≠ [] then [asc "logit_bias"] else [] := by
    cases r.LogitBias <;> simp
  have e6 : (if List.isEmpty r.User = true then [] else [(asc "user", JsonValue.string r.User)]).map
      Prod.fst = if r.User ≠ [] then [asc "user"] else [] := by
    cases r.User <;> simp
  simp only [List.map_append, floatMember_keys _ _ _ ht, floatMember_keys _ _ _ htp,
    floatMember_keys _ _ _ hpp, floatMember_keys _ _ _ hfp, expectedKeys, e1, e2, e3, e4, e5, e6,
    List.append_assoc]

theorem optionalMembers_finite (r : ChatCompletionRequest)
    (h1 : r.Temperature.isFinite = true) (h2 : r.TopP.isFinite = true)
    (h3 : r.PresencePenalty.isFinite = true) (h4 : r.FrequencyPenalty.isFinite = true) :
    ∃ optional, optionalMembers r = .ok optional := by
  obtain ⟨t, ht⟩ := floatMember_finite (asc "temperature") _ h1
  obtain ⟨tp, htp⟩ := floatMember_finite (asc "top_p") _ h2
  obtain ⟨pp, hpp⟩ := floatMember_finite (asc "presence_penalty") _ h3
  obtain ⟨fp, hfp⟩ := floatMember_finite (asc "frequency_penalty") _ h4
  unfold optionalMembers
  rw [ht, except_ok_bind, htp, except_ok_bind, hpp, except_ok_bind, hfp, except_ok_bind]
  exact ⟨_, rfl⟩

theorem marshalRequest_of_optional (r : ChatCompletionRequest)
    (optional : List (GoString × JsonValue)) (h : optionalMembers r = .ok optional) :
    marshalRequest r = (encodeMessages r.Messages).map
      (fun ms => (asc "model", JsonValue.string r.Model)
        :: (asc "messages", JsonValue.messages ms) :: optional) := by
  unfold marshalRequest
  cases encodeMessages r.Messages with
  | error e => rfl
  | ok ms =>
    rw [except_ok_bind, h, except_ok_bind]
    rfl

theorem marshalRequest_keys (r : ChatCompletionRequest) (members : List (GoString × JsonValue))
    (h : marshalRequest r = .ok members) : members.map Prod.fst = expectedKeys r := by
  unfold marshalRequest at h
  obtain ⟨ms, _, h⟩ := except_bind_ok _ _ _ h
  obtain ⟨optional, ho, h⟩ := except_bind_ok _ _ _ h
  injection h with h
  rw [← h, ← optionalMembers_keys r optional ho]
  rfl

/-- C13 (as amended): for every `ChatCompletionRequest` whose float fields are
neither NaN nor infinite, `json.Marshal` writes the members `model` and
`messages` followed by the optional members, each optional key (`max_tokens`,
`temperature`, `top_p`, `n`, `stream`, `stop`, `presence_penalty`,
`frequency_penalty`, `logit_bias`, `user`) present exactly when its field is not
zero, in the order of the fields, and nothing but the encoding of the messages
can make it fail; a request whose only non-default fields are Model and
Messages has no optional member, so its object has exactly the keys `model`
and `messages`, in that order. -/
theorem finite_request_has_expected_keys (r : ChatCompletionRequest)
    (h1 : r.Temperature.isFinite = true) (h2 : r.TopP.isFinite = true)
    (h3 : r.PresencePenalty.isFinite = true) (h4 : r.FrequencyPenalty.isFinite = true) :
    ∃ optional : List (GoString × JsonValue),
      [asc "model", asc "messages"] ++ optional.map Prod.fst = expectedKeys r
        ∧ marshalRequest r = (encodeMessages r.Messages).map
            (fun ms => (asc "model", JsonValue.string r.Model)
              :: (asc "messages", JsonValue.messages ms) :: optional)
        ∧ (∀ members, marshalRequest r = .ok members → members.map Prod.fst = expectedKeys r)
        ∧ (r.MaxTokens = 0 → r.Temperature.isZero = true → r.TopP.isZero = true → r.N = 0 →
            r.Stream = false → r.Stop = [] → r.PresencePenalty.isZero = true →
            r.FrequencyPenalty.isZero = true → r.LogitBias = [] → r.User = [] →
            optional = [] ∧ expectedKeys r = [asc "model", asc "messages"]) := by
  obtain ⟨optional, ho⟩ := optionalMembers_finite r h1 h2 h3 h4
  have hk := optionalMembers_keys r optional ho
  refine ⟨optional, hk, marshalRequest_of_optional r optional ho,
    fun members hm => marshalRequest_keys r members hm, ?_⟩
  intro z1 z2 z3 z4 z5 z6 z7 z8 z9 z10
  have he : expectedKeys r = [asc "model", asc "messages"] := by
    simp [expectedKeys, z1, z2, z3, z4, z5, z6, z7, z8, z9, z10]
  refine ⟨?_, he⟩
  rw [he] at hk
  have : optional.map Prod.fst = [] := by simpa using hk
  exact List.map_eq_nil_iff.mp this

theorem finite_request_has_expected_keys_witness :
    (exampleRequest (asc "gpt-3.5-turbo") false).Temperature.isFinite = true ∧
    (exampleRequest (asc "gpt-3.5-turbo") false).TopP.isFinite = true ∧
    (exampleRequest (asc "gpt-3.5-turbo") false).PresencePenalty.isFinite = true ∧
    (exampleRequest (asc "gpt-3.5-turbo") false).FrequencyPenalty.isFinite = true ∧
    ∃ optional : List (GoString × JsonValue),
      [asc "model", asc "messages"] ++ optional.map Prod.fst
          = expectedKeys (exampleRequest (asc "gpt-3.5-turbo") false)
        ∧ marshalRequest (exampleRequest (asc "gpt-3.5-turbo") false)
          = (encodeMessages (exampleRequest (asc "gpt-3.5-turbo") false).Messages).map
            (fun ms => (asc "model",
                JsonValue.string (exampleRequest (asc "gpt-3.5-turbo") false).Model)
              :: (asc "messages", JsonValue.messages ms) :: optional)
        ∧ (∀ members, marshalRequest (exampleRequest (asc "gpt-3.5-turbo") false) = .ok members →
            members.map Prod.fst = expectedKeys (exampleRequest (asc "gpt-3.5-turbo") false))
        ∧ ((exampleRequest (asc "gpt-3.5-turbo") false).MaxTokens = 0 →
            (exampleRequest (asc "gpt-3.5-turbo") false).Temperature.isZero = true →
            (exampleRequest (asc "gpt-3.5-turbo") false).TopP.isZero = true →
            (exampleRequest (asc "gpt-3.5-turbo") false).N = 0 →
            (exampleRequest (asc "gpt-3.5-turbo") false).Stream = false →
            (exampleRequest (asc "gpt-3.5-turbo") false).Stop = [] →
            (exampleRequest (asc "gpt-3.5-turbo") false).PresencePenalty.isZero = true →
            (exampleRequest (asc "gpt-3.5-turbo") false).FrequencyPenalty.isZero = true →
            (exampleRequest (asc "gpt-3.5-turbo") false).LogitBias = [] →
            (exampleRequest (asc "gpt-3.5-turbo") false).User = [] →
            optional = [] ∧ expectedKeys (exampleRequest (asc "gpt-3.5-turbo") false)
              = [asc "model", asc "messages"]) :=
  ⟨rfl, rfl, rfl, rfl,
    finite_request_has_expected_keys (exampleRequest (asc "gpt-3.5-turbo") false)
      rfl rfl rfl rfl⟩

/-- C13 (counterexample): a request whose temperature is a NaN is not
serialized at all: `json.Marshal` returns an unsupported-value error, so there
is no JSON object with the keys `model` and `messages`. -/
theorem nan_temperature_is_not_serialized :
    nanTemperatureRequest.Temperature.isFinite = false
      ∧ marshalRequest nanTemperatureRequest = .error .unsupportedValue
      ∧ (∀ formatFloat, jsonMarshal formatFloat nanTemperatureRequest = .error .unsupportedValue) :=
  ⟨rfl, rfl, fun _ => rfl⟩

theorem scalarBytes_head (r : Nat) (hv : ValidRune r = true) :
    (scalarBytes r).head? ≠ some 0x22 := by
  rcases scalarBytes_cases r hv with ⟨_, e⟩ | ⟨_, _, h, _, e⟩ | ⟨_, e⟩ | ⟨_, e⟩ | ⟨_, e⟩
    | ⟨_, e⟩ | ⟨_, e⟩ | ⟨_, e⟩ | ⟨_, e⟩ | ⟨_, e⟩ | ⟨_, _, e⟩ | ⟨_, _, e⟩
  · rw [e]; simp
  · rw [e]; simpa using h
  all_goals rw [e]; simp [specPairEscape]

theorem flatMap_scalarBytes_head (rs : List Nat) (h : ∀ r ∈ rs, ValidRune r = true) :
    (rs.flatMap scalarBytes).head? ≠ some 0x22 := by
  cases rs with
  | nil => simp
  | cons r t =>
    have hv := h r (List.mem_cons_self _ _)
    have hne := scalarBytes_ne_nil r hv
    have hh := scalarBytes_head r hv
    rw [List.flatMap_cons]
    cases hs : scalarBytes r with
    | nil => exact absurd hs hne
    | cons b bs =>
      rw [hs] at hh
      simpa using hh

/-- C14 (the code at the failing input): for the request with Model
`gpt-3.5-turbo` and the single message (Role `user`, Content `hi`, empty Name),
`Content.MarshalJSON` returns the two bytes `hi` without quotes, `compact`
rejects them as JSON, and `json.Marshal` returns a marshaler error instead of
the bytes the specification gives.  With the content `123` the same request is
serialized, the value after the content key being the number 123.  On no input
does the fragment of `Content.MarshalJSON` begin with a double quote. -/
theorem plain_request_is_not_serialized :
    MarshalJSON (asc "hi") = .ok (asc "hi", none)
      ∧ compact (asc "hi") = none
      ∧ marshalRequest (exampleRequest (asc "gpt-3.5-turbo") false) = .error .marshalerError
      ∧ (∀ formatFloat,
          jsonMarshal formatFloat (exampleRequest (asc "gpt-3.5-turbo") false)
            = .error .marshalerError)
      ∧ (∀ formatFloat,
          jsonMarshal formatFloat (requestWith (asc "123") 0 ⟨0⟩)
            = .ok (asc
              "\x7b\"model\":\"gpt-3.5-turbo\",\"messages\":[\x7b\"role\":\"user\",\"content\":123\x7d]\x7d"))
      ∧ (∀ c : GoString, ∃ out, MarshalJSON c = .ok (out, none) ∧ out.head? ≠ some 0x22) :=
  ⟨rfl, rfl, rfl, fun _ => rfl, fun _ => rfl,
    fun c => ⟨_, MarshalJSON_flat c, flatMap_scalarBytes_head _ (stringToRunes_valid c)⟩⟩

end GoOpenAI
